import Mathlib

/-!
Verification development for the pay_app recurrence / card-billing / forecast
engine.  The Python sources under `app/utils/dates.py`, `app/services/scheduler.py`,
`app/services/card_billing.py` and `app/services/forecast.py` are shallowly
embedded as executable Lean functions; monetary amounts are `Int` (Python ints),
calendar dates are a `(year, month, day)` structure ordered lexicographically
(Python's `datetime.date` comparison is exactly this lexicographic order), and
the injected holiday calendar is a finite list of dates (the `holidays` package
provides a finite set; the absent-package degradation is the empty list).
-/

/-- A calendar date, as Python's `datetime.date`: year, month (1-12), day (1-31).
`datetime.date` compares lexicographically on `(year, month, day)`. -/
structure Date where
  year : Int
  month : Nat
  day : Nat
deriving DecidableEq, Repr

/-- Python `d1 < d2` on dates: lexicographic on (year, month, day). -/
def Date.lt (a b : Date) : Prop :=
  a.year < b.year ∨ (a.year = b.year ∧ (a.month < b.month ∨ (a.month = b.month ∧ a.day < b.day)))

/-- Python `d1 <= d2` on dates. -/
def Date.le (a b : Date) : Prop :=
  a.year < b.year ∨ (a.year = b.year ∧ (a.month < b.month ∨ (a.month = b.month ∧ a.day ≤ b.day)))

instance (a b : Date) : Decidable (Date.lt a b) :=
  inferInstanceAs (Decidable (_ ∨ _))

instance (a b : Date) : Decidable (Date.le a b) :=
  inferInstanceAs (Decidable (_ ∨ _))

theorem Date.le_refl (a : Date) : Date.le a a := by
  simp [Date.le]

theorem Date.le_trans {a b c : Date} (h1 : Date.le a b) (h2 : Date.le b c) : Date.le a c := by
  simp only [Date.le] at *
  rcases a with ⟨ay, am, ad⟩; rcases b with ⟨by_, bm, bd⟩; rcases c with ⟨cy, cm, cd⟩
  simp_all only
  omega

theorem Date.lt_of_lt_of_le {a b c : Date} (h1 : Date.lt a b) (h2 : Date.le b c) : Date.lt a c := by
  simp only [Date.lt, Date.le] at *
  rcases a with ⟨ay, am, ad⟩; rcases b with ⟨by_, bm, bd⟩; rcases c with ⟨cy, cm, cd⟩
  simp_all only
  omega

theorem Date.lt_of_le_of_lt {a b c : Date} (h1 : Date.le a b) (h2 : Date.lt b c) : Date.lt a c := by
  simp only [Date.lt, Date.le] at *
  rcases a with ⟨ay, am, ad⟩; rcases b with ⟨by_, bm, bd⟩; rcases c with ⟨cy, cm, cd⟩
  simp_all only
  omega

theorem Date.lt_trans {a b c : Date} (h1 : Date.lt a b) (h2 : Date.lt b c) : Date.lt a c := by
  simp only [Date.lt] at *
  rcases a with ⟨ay, am, ad⟩; rcases b with ⟨by_, bm, bd⟩; rcases c with ⟨cy, cm, cd⟩
  simp_all only
  omega

theorem Date.le_of_lt {a b : Date} (h : Date.lt a b) : Date.le a b := by
  simp only [Date.lt, Date.le] at *
  omega

theorem Date.lt_irrefl (a : Date) : ¬ Date.lt a a := by
  simp [Date.lt]

theorem Date.le_total (a b : Date) : Date.le a b ∨ Date.le b a := by
  simp only [Date.le]
  rcases a with ⟨ay, am, ad⟩; rcases b with ⟨by_, bm, bd⟩
  simp only
  omega

theorem Date.not_lt {a b : Date} : ¬ Date.lt a b ↔ Date.le b a := by
  simp only [Date.lt, Date.le]
  rcases a with ⟨ay, am, ad⟩; rcases b with ⟨by_, bm, bd⟩
  simp only
  omega

theorem Date.not_le {a b : Date} : ¬ Date.le a b ↔ Date.lt b a := by
  simp only [Date.lt, Date.le]
  rcases a with ⟨ay, am, ad⟩; rcases b with ⟨by_, bm, bd⟩
  simp only
  omega

theorem Date.le_antisymm {a b : Date} (h1 : Date.le a b) (h2 : Date.le b a) : a = b := by
  rcases a with ⟨ay, am, ad⟩; rcases b with ⟨by_, bm, bd⟩
  simp only [Date.le] at h1 h2
  simp only [Date.mk.injEq]
  omega

theorem Date.lt_or_eq_of_le {a b : Date} (h : Date.le a b) : Date.lt a b ∨ a = b := by
  by_cases hlt : Date.lt a b
  · exact Or.inl hlt
  · exact Or.inr (Date.le_antisymm h (Date.not_lt.mp hlt))

/-- `dates.py is_leap` (via `calendar.monthrange`): Gregorian leap-year rule. -/
def isLeapYear (y : Int) : Bool :=
  (y % 4 == 0 && y % 100 != 0) || (y % 400 == 0)

/-- `dates.py last_day_of_month` (via `calendar.monthrange(year, month)[1]`). -/
def lastDayOfMonth (y : Int) (m : Nat) : Nat :=
  if m = 2 then (if isLeapYear y then 29 else 28)
  else if m = 4 ∨ m = 6 ∨ m = 9 ∨ m = 11 then 30
  else 31

/-- `dates.py resolve_day_in_month`: clamp the desired day into the month. -/
def resolveDayInMonth (y : Int) (m : Nat) (desiredDay : Nat) : Date :=
  ⟨y, m, min desiredDay (lastDayOfMonth y m)⟩

/-- Python `d + timedelta(days=1)` on a valid date: the calendar successor. -/
def Date.nextDay (dt : Date) : Date :=
  if dt.day < lastDayOfMonth dt.year dt.month then ⟨dt.year, dt.month, dt.day + 1⟩
  else if dt.month < 12 then ⟨dt.year, dt.month + 1, 1⟩
  else ⟨dt.year + 1, 1, 1⟩

/-- Python `d - timedelta(days=1)` on a valid date: the calendar predecessor. -/
def Date.prevDay (dt : Date) : Date :=
  if 1 < dt.day then ⟨dt.year, dt.month, dt.day - 1⟩
  else if 1 < dt.month then ⟨dt.year, dt.month - 1, lastDayOfMonth dt.year (dt.month - 1)⟩
  else ⟨dt.year - 1, 12, 31⟩

theorem Date.lt_nextDay (dt : Date) : Date.lt dt dt.nextDay := by
  rcases dt with ⟨y, m, d⟩
  simp only [Date.nextDay, Date.lt]
  split
  · simp
  · split
    · simp
    · simp

theorem Date.prevDay_lt (dt : Date) : Date.lt dt.prevDay dt := by
  rcases dt with ⟨y, m, d⟩
  simp only [Date.prevDay, Date.lt]
  split
  · simp
    omega
  · split
    · simp
      omega
    · simp

/-- Days since 1970-01-01 for a civil date (Hinnant's `days_from_civil`,
which is what Python's `datetime.date.toordinal` arithmetic amounts to,
up to the constant offset).  Used for day differences and weekday. -/
def daysFromCivil (y : Int) (m : Nat) (d : Nat) : Int :=
  let yy : Int := if m ≤ 2 then y - 1 else y
  let era : Int := yy / 400
  let yoe : Int := yy - era * 400
  let mp : Int := ((m : Int) + 9) % 12
  let doy : Int := (153 * mp + 2) / 5 + (d : Int) - 1
  let doe : Int := yoe * 365 + yoe / 4 - yoe / 100 + doy
  era * 146097 + doe - 719468

/-- Civil date from days since 1970-01-01 (Hinnant's `civil_from_days`). -/
def civilFromDays (z0 : Int) : Date :=
  let z : Int := z0 + 719468
  let era : Int := z / 146097
  let doe : Int := z - era * 146097
  let yoe : Int := (doe - doe / 1460 + doe / 36524 - doe / 146096) / 365
  let y : Int := yoe + era * 400
  let doy : Int := doe - (365 * yoe + yoe / 4 - yoe / 100)
  let mp : Int := (5 * doy + 2) / 153
  let d : Int := doy - (153 * mp + 2) / 5 + 1
  let m : Int := if mp < 10 then mp + 3 else mp - 9
  ⟨if m ≤ 2 then y + 1 else y, m.toNat, d.toNat⟩

/-- Day-number view of a date (for `(d1 - d2).days` and `timedelta` arithmetic). -/
def Date.toDays (dt : Date) : Int := daysFromCivil dt.year dt.month dt.day

/-- Python `d + timedelta(days=n)` for an arbitrary day count. -/
def Date.addDays (dt : Date) (n : Int) : Date := civilFromDays (dt.toDays + n)

/-- Python `date.weekday()`: Monday = 0 … Sunday = 6. -/
def Date.weekday (dt : Date) : Int := (dt.toDays + 3) % 7

/-- `dates.py is_weekend`. -/
def isWeekend (dt : Date) : Bool := decide (5 ≤ dt.weekday)

/-- `dates.py is_holiday`: membership in the injected holiday calendar
(`hol = []` models `_JP_HOLIDAYS is None`, the degraded weekend-only mode). -/
def isHoliday (hol : List Date) (dt : Date) : Bool := hol.contains dt

/-- `dates.py is_business_day`. -/
def isBusinessDay (hol : List Date) (dt : Date) : Bool :=
  !isWeekend dt && !isHoliday hol dt

/-- The while-loop of `dates.py shift_to_business_day` walking forward,
expressed with explicit fuel (the Python loop terminates on every real
calendar; with the fuel below exhausted the date reached so far is returned). -/
def shiftNextAux (hol : List Date) : Nat → Date → Date
  | 0, d => d
  | n + 1, d => if isBusinessDay hol d then d else shiftNextAux hol n d.nextDay

/-- The while-loop of `dates.py shift_to_business_day` walking backward. -/
def shiftPrevAux (hol : List Date) : Nat → Date → Date
  | 0, d => d
  | n + 1, d => if isBusinessDay hol d then d else shiftPrevAux hol n d.prevDay

/-- Fuel that suffices for every holiday list: any window of
`7 * (length + 2)` consecutive days holds more weekdays than holidays. -/
def shiftFuel (hol : List Date) : Nat := 7 * (hol.length + 2)

/-- `dates.py shift_to_business_day` with `direction="next"`. -/
def shiftToBusinessDayNext (hol : List Date) (d : Date) : Date :=
  shiftNextAux hol (shiftFuel hol) d

/-- `dates.py shift_to_business_day` with `direction="prev"`. -/
def shiftToBusinessDayPrev (hol : List Date) (d : Date) : Date :=
  shiftPrevAux hol (shiftFuel hol) d

/-- `dates.py apply_business_day_rule`: income is pulled to the previous
business day, expense pushed to the next; any other kind is returned as is. -/
def applyBusinessDayRule (hol : List Date) (d : Date) (cashflowType : String) : Date :=
  if cashflowType = "income" then shiftToBusinessDayPrev hol d
  else if cashflowType = "expense" then shiftToBusinessDayNext hol d
  else d

theorem shiftNextAux_le (hol : List Date) (n : Nat) (d : Date) :
    Date.le d (shiftNextAux hol n d) := by
  induction n generalizing d with
  | zero => exact Date.le_refl d
  | succ k ih =>
    simp only [shiftNextAux]
    split
    · exact Date.le_refl d
    · exact Date.le_trans (Date.le_of_lt (Date.lt_nextDay d)) (ih d.nextDay)

theorem shiftPrevAux_le (hol : List Date) (n : Nat) (d : Date) :
    Date.le (shiftPrevAux hol n d) d := by
  induction n generalizing d with
  | zero => exact Date.le_refl d
  | succ k ih =>
    simp only [shiftPrevAux]
    split
    · exact Date.le_refl d
    · exact Date.le_trans (ih d.prevDay) (Date.le_of_lt (Date.prevDay_lt d))

-- Sanity checks of the calendar embedding on concrete dates.
example : lastDayOfMonth 2026 2 = 28 := by decide
example : lastDayOfMonth 2024 2 = 29 := by decide
example : daysFromCivil 1970 1 1 = 0 := by decide
example : (Date.weekday ⟨2026, 2, 28⟩) = 5 := by decide
example : (Date.weekday ⟨2026, 2, 27⟩) = 4 := by decide
example : (Date.weekday ⟨2026, 1, 31⟩) = 5 := by decide
example : Date.addDays ⟨2026, 2, 28⟩ 2 = ⟨2026, 3, 2⟩ := by decide
example : shiftToBusinessDayNext [] ⟨2026, 2, 28⟩ = ⟨2026, 3, 2⟩ := by decide

/-! ## Scheduler month helpers (`app/services/scheduler.py`) -/

/-- `scheduler.py _month_add`: add months to a (year, month 1-12) pair. -/
def monthAdd (y : Int) (m : Nat) (add : Int) : Int × Nat :=
  let total : Int := y * 12 + ((m : Int) - 1) + add
  (total / 12, (total % 12).toNat + 1)

/-- `card_billing.py _add_months` (same value as `_month_add`, different formula). -/
def addMonths (y : Int) (m : Nat) (delta : Int) : Int × Nat :=
  let mm : Int := (m : Int) + delta
  let yy : Int := y + (mm - 1) / 12
  (yy, ((mm - 1) % 12).toNat + 1)

theorem addMonths_eq_monthAdd (y : Int) (m : Nat) (delta : Int) :
    addMonths y m delta = monthAdd y m delta := by
  simp only [addMonths, monthAdd, Prod.mk.injEq]
  constructor
  · have h : (m : Int) - 1 + delta + y * 12 = ((m : Int) + delta - 1) + 12 * y := by ring
    have := Int.add_mul_ediv_left ((m : Int) + delta - 1) y (by norm_num : (12 : Int) ≠ 0)
    omega
  · have := @Int.add_mul_emod_self_left ((m : Int) - 1 + delta) 12 y
    have h2 : (m : Int) - 1 + delta + 12 * y = y * 12 + ((m : Int) - 1) + delta := by ring
    rw [h2] at this
    rw [this]
    have h3 : ((m : Int) + delta - 1) = ((m : Int) - 1 + delta) := by ring
    rw [h3]

/-- `scheduler.py _month_index`: linear month counter `year*12 + (month-1)`. -/
def monthIndex (dt : Date) : Int := dt.year * 12 + ((dt.month : Int) - 1)

/-- `scheduler.py _month_first`: `d.replace(day=1)`. -/
def monthFirst (dt : Date) : Date := ⟨dt.year, dt.month, 1⟩

/-- `scheduler.py _is_within_effective`: inside the optional validity window. -/
def isWithinEffective (d : Date) (startD endD : Option Date) : Bool :=
  (match startD with | some s => decide (Date.le s d) | none => true) &&
  (match endD with | some e => decide (Date.le d e) | none => true)

/-- `scheduler.py _clip_range_to_effective`. -/
def clipRangeToEffective (start stop : Date) (startD endD : Option Date) :
    Option (Date × Date) :=
  let clippedStart := match startD with
    | some s => if Date.lt start s then s else start
    | none => start
  let clippedEnd := match endD with
    | some e => if Date.lt e stop then e else stop
    | none => stop
  if Date.lt clippedEnd clippedStart then none else some (clippedStart, clippedEnd)

/-! ## Data model (`app/models.py`; fields that the real repository adds by
migration but whose model declarations are not under `src/` are included as
stated by the spec, see the `Modelled from the spec:` comments). -/

/-- `models.py Plan`. -/
structure Plan where
  id : Nat
  userId : Nat
  type : String
  amountYen : Int
  accountId : Nat
  paymentMethod : String
  cardId : Option Nat
  freq : String
  day : Nat
  intervalMonths : Nat
  month : Nat
  startDate : Option Date
  endDate : Option Date
deriving DecidableEq, Repr

/-- `models.py Subscription`.  Modelled from the spec: the `interval_weeks`
column and the validity window `[effective_start, effective_end]` are used by
`scheduler.py` and the tests but their column declarations are not in the
`src/` copy of `models.py`; spec §3 gives every recurring definition an
optional validity window and a weekly interval. -/
structure Subscription where
  id : Nat
  name : String
  amountYen : Int
  billingDay : Nat
  freq : String
  intervalMonths : Nat
  intervalWeeks : Nat
  billingMonth : Nat
  paymentMethod : String
  accountId : Option Nat
  cardId : Option Nat
  effectiveStartDate : Option Date
  effectiveEndDate : Option Date
deriving DecidableEq, Repr

/-- Modelled from the spec: `VariableRecurringPayment` is imported from
`app.models` by `scheduler.py` and constructed by the tests, but its class
declaration is not in the `src/` copy of `models.py`.  Spec §3: a recurring
definition with an estimated amount, frequency fields, a validity window and
a settlement method with account or card reference. -/
structure VariableRecurringPayment where
  id : Nat
  name : String
  estimatedAmountYen : Int
  billingDay : Nat
  freq : String
  intervalMonths : Nat
  intervalWeeks : Nat
  billingMonth : Nat
  paymentMethod : String
  accountId : Option Nat
  cardId : Option Nat
  effectiveStartDate : Option Date
  effectiveEndDate : Option Date
deriving DecidableEq, Repr

/-- Modelled from the spec: `VariableRecurringConfirmation` (spec §3: an
override of the estimate keyed by definition id + occurrence date); its class
declaration is likewise missing from the `src/` copy of `models.py`. -/
structure VariableRecurringConfirmation where
  variablePaymentId : Nat
  occurrenceDate : Date
  confirmedAmountYen : Int
deriving DecidableEq, Repr

/-- `models.py Account`.  Modelled from the spec: the validity window columns
are added by the lightweight migration in `main.py` and read via `getattr` in
`forecast.py`; spec §3 gives accounts an optional validity window. -/
structure Account where
  id : Nat
  name : String
  kind : String
  balanceYen : Int
  userId : Nat
  effectiveStartDate : Option Date
  effectiveEndDate : Option Date
deriving DecidableEq, Repr

/-- `models.py Card`.  Modelled from the spec: validity window columns as for
`Account`. -/
structure Card where
  id : Nat
  name : String
  closingDay : Nat
  paymentDay : Nat
  paymentAccountId : Nat
  effectiveStartDate : Option Date
  effectiveEndDate : Option Date
deriving DecidableEq, Repr

/-- `models.py CardTransaction` (expense positive / refund negative). -/
structure CardTransaction where
  id : Nat
  cardId : Nat
  date : Date
  amountYen : Int
deriving DecidableEq, Repr

/-- `models.py CardStatement`. -/
structure CardStatement where
  cardId : Nat
  periodStart : Date
  periodEnd : Date
  amountYen : Int
  withdrawDate : Date
deriving DecidableEq, Repr

/-- `models.py CardRevolving`. -/
structure CardRevolving where
  cardId : Nat
  startMonth : Date
  remainingYen : Int
  monthlyPaymentYen : Int
deriving DecidableEq, Repr

/-- `models.py CardInstallment` (`months : Int`, defaulted to at least 1 by the
calculator). -/
structure CardInstallment where
  cardId : Nat
  startMonth : Date
  months : Int
  totalAmountYen : Int
deriving DecidableEq, Repr

/-- `models.py CashflowEvent`.  `id` is the storage-assigned key (0 before the
row is flushed, which is the state in which the builders return events). -/
structure CashflowEvent where
  id : Nat
  userId : Nat
  date : Date
  amountYen : Int
  accountId : Nat
  planId : Option Nat
  description : Option String
  source : String
  status : String
  transferId : Option String
deriving DecidableEq, Repr

/-! ## Amortization calculators (`scheduler.py`) -/

/-- `scheduler.py _revolving_due_for_month`. -/
def revolvingDueForMonth (item : CardRevolving) (monthFirstD : Date) : Int :=
  let remaining : Int := |item.remainingYen|
  let monthly : Int := |item.monthlyPaymentYen|
  if remaining ≤ 0 ∨ monthly ≤ 0 then 0
  else
    let startFirst := monthFirst item.startMonth
    let offset := monthIndex monthFirstD - monthIndex startFirst
    if offset < 0 then 0
    else
      let paidBefore := monthly * offset
      if remaining ≤ paidBefore then 0
      else min monthly (remaining - paidBefore)

/-- `scheduler.py _installment_due_for_month`. -/
def installmentDueForMonth (item : CardInstallment) (monthFirstD : Date) : Int :=
  let total : Int := |item.totalAmountYen|
  let months : Int := max 1 item.months
  if total ≤ 0 then 0
  else
    let startFirst := monthFirst item.startMonth
    let offset := monthIndex monthFirstD - monthIndex startFirst
    if offset < 0 ∨ months ≤ offset then 0
    else total / months + (if offset < total % months then 1 else 0)

/-- `scheduler.py _occurrence_amount_yen`: confirmed amount for the exact
(definition id, occurrence date) key, else the estimate; absolute value. -/
def occurrenceAmountYen (defaultAmountYen : Int) (lookup : Nat → Date → Option Int)
    (paymentId : Nat) (occurrenceDate : Date) : Int :=
  match lookup paymentId occurrenceDate with
  | some confirmed => |confirmed|
  | none => |defaultAmountYen|

/-- `scheduler.py occurs_monthly_interval`. -/
def occursMonthlyInterval (start : Date) (targetMonthFirst : Date) (intervalMonths : Int) : Bool :=
  let iv := if intervalMonths ≤ 0 then 1 else intervalMonths
  let startIndex := start.year * 12 + ((start.month : Int) - 1)
  let targetIndex := targetMonthFirst.year * 12 + ((targetMonthFirst.month : Int) - 1)
  if targetIndex < startIndex then false
  else decide ((targetIndex - startIndex) % iv = 0)

/-! ## Occurrence resolution (`scheduler.py`) -/

/-- Loop body of `scheduler.py _iter_weekly_occurrences` (fuel-bounded; the
fuel used below always covers the range). -/
def weeklyLoop (stop : Date) (stepDays : Int) : Nat → Date → List Date
  | 0, _ => []
  | n + 1, cur =>
    if Date.le cur stop then cur :: weeklyLoop stop stepDays n (cur.addDays stepDays)
    else []

/-- `scheduler.py _iter_weekly_occurrences`. -/
def iterWeeklyOccurrences (start stop anchor : Date) (intervalWeeks : Nat) : List Date :=
  if Date.lt stop start then []
  else
    let stepDays : Int := 7 * (max 1 intervalWeeks : Nat)
    let diff := start.toDays - anchor.toDays
    let cur := if diff ≤ 0 then anchor
      else anchor.addDays (((diff + stepDays - 1) / stepDays) * stepDays)
    weeklyLoop stop stepDays ((stop.toDays - cur.toDays).toNat / 7 + 1) cur

/-- Insertion into a date-sorted list (used to embed Python `sorted`). -/
def insertDateSorted (d : Date) : List Date → List Date
  | [] => [d]
  | x :: xs => if Date.le d x then d :: x :: xs else x :: insertDateSorted d xs

/-- Python `sorted` on dates. -/
def sortDates (l : List Date) : List Date := l.foldr insertDateSorted []

/-- Removal of adjacent duplicates in a sorted list (so that
`sortedUnique` is Python's `sorted(set(...))`). -/
def dedupSortedDates : List Date → List Date
  | [] => []
  | [x] => [x]
  | x :: y :: xs =>
    if x = y then dedupSortedDates (y :: xs) else x :: dedupSortedDates (y :: xs)

/-- Python `sorted(set(l))` over dates: the sorted list of distinct elements. -/
def sortedUnique (l : List Date) : List Date := dedupSortedDates (sortDates l)

/-- The frequency-describing fields shared (duck-typed in Python) by
`Subscription` and `VariableRecurringPayment`. -/
structure RecurFields where
  freq : String
  billingDay : Nat
  intervalMonths : Nat
  intervalWeeks : Nat
  billingMonth : Nat
deriving DecidableEq, Repr

def Subscription.recurFields (s : Subscription) : RecurFields :=
  ⟨s.freq, s.billingDay, s.intervalMonths, s.intervalWeeks, s.billingMonth⟩

def VariableRecurringPayment.recurFields (v : VariableRecurringPayment) : RecurFields :=
  ⟨v.freq, v.billingDay, v.intervalMonths, v.intervalWeeks, v.billingMonth⟩

/-- Month-by-month loop of `scheduler.py _subscription_occurrences_in_range`
(the non-weekly frequencies), fuel-bounded over the month span. -/
def occMonthLoop (hol : List Date) (freq : String) (day intervalMonths billingMonth : Nat)
    (start stop : Date) : Nat → Date → List Date
  | 0, _ => []
  | n + 1, curFirst =>
    if Date.le curFirst stop then
      let should :=
        if freq = "monthly" then true
        else if freq = "yearly" then curFirst.month == billingMonth
        else if freq = "monthly_interval" then
          occursMonthlyInterval ⟨2000, billingMonth, 1⟩ curFirst (intervalMonths : Int)
        else false
      let here :=
        if should then
          let d0 := resolveDayInMonth curFirst.year curFirst.month day
          let d := applyBusinessDayRule hol d0 "expense"
          if Date.le start d ∧ Date.le d stop then [d] else []
        else []
      let next := monthAdd curFirst.year curFirst.month 1
      here ++ occMonthLoop hol freq day intervalMonths billingMonth start stop n ⟨next.1, next.2, 1⟩
    else []

/-- `scheduler.py _subscription_occurrences_in_range`. -/
def subscriptionOccurrencesInRange (hol : List Date) (f : RecurFields) (start stop : Date) :
    List Date :=
  let day := if f.billingDay = 0 then 1 else f.billingDay
  let intervalMonths := max 1 (if f.intervalMonths = 0 then 1 else f.intervalMonths)
  let intervalWeeks := max 1 (if f.intervalWeeks = 0 then 1 else f.intervalWeeks)
  let billingMonth := if f.billingMonth < 1 ∨ 12 < f.billingMonth then 1 else f.billingMonth
  if f.freq = "weekly_interval" then
    let anchor := resolveDayInMonth 2000 billingMonth day
    sortedUnique (((iterWeeklyOccurrences start stop anchor intervalWeeks).map
        (fun d => applyBusinessDayRule hol d "expense")).filter
      (fun adj => decide (Date.le start adj) && decide (Date.le adj stop)))
  else
    sortedUnique (occMonthLoop hol f.freq day intervalMonths billingMonth start stop
      ((monthIndex stop - monthIndex (monthFirst start)).toNat + 1) ⟨start.year, start.month, 1⟩)

/-! ## Event builders (`scheduler.py`) -/

/-- Two-digit zero padding, as Python date formatting uses. -/
def pad2 (n : Nat) : String := if n < 10 then "0" ++ toString n else toString n

/-- Python `str(date)`: ISO `YYYY-MM-DD`. -/
def isoString (dt : Date) : String :=
  toString dt.year ++ "-" ++ pad2 dt.month ++ "-" ++ pad2 dt.day

/-- `scheduler.py build_month_events`: one expected event per plan that fires
in the month (card-routed plans are excluded here and aggregated into the
card withdrawal instead). -/
def buildMonthEvents (hol : List Date) (plans : List Plan) (userId : Nat)
    (monthFirstD : Date) (today : Date) : List CashflowEvent :=
  let y := monthFirstD.year
  let m := monthFirstD.month
  (plans.filter (fun p => p.userId == userId)).filterMap (fun p =>
    if p.accountId = 0 then none
    else if p.paymentMethod == "card" &&
        (match p.cardId with | some c => decide (c ≠ 0) | none => false) then none
    else
      let pStart := p.startDate.getD today
      let shouldCreate :=
        if p.freq = "monthly" then some true
        else if p.freq = "yearly" then some (p.month == m)
        else if p.freq = "monthly_interval" then
          some (occursMonthlyInterval pStart monthFirstD
            ((if p.intervalMonths = 0 then 1 else p.intervalMonths : Nat) : Int))
        else none
      match shouldCreate with
      | none => none
      | some false => none
      | some true =>
        let desired := if p.day = 0 then 1 else p.day
        let evDate0 := resolveDayInMonth y m desired
        let evDate := applyBusinessDayRule hol evDate0
          (if p.type == "income" then "income" else "expense")
        if (match p.endDate with | some ed => decide (Date.lt ed evDate) | none => false) then none
        else
          let amount := if p.type == "income" then |p.amountYen| else -|p.amountYen|
          some ⟨0, userId, evDate, amount, p.accountId, some p.id, none, "plan", "expected", none⟩)

/-- `scheduler.py build_month_subscription_events`: bank-routed subscription
occurrences of the month, filtered by the subscription's validity window. -/
def buildMonthSubscriptionEvents (hol : List Date) (subs : List Subscription)
    (userId : Nat) (monthFirstD : Date) : List CashflowEvent :=
  let y := monthFirstD.year
  let m := monthFirstD.month
  let monthLast : Date := ⟨y, m, lastDayOfMonth y m⟩
  subs.flatMap (fun s =>
    if s.paymentMethod != "bank" then []
    else
      match s.accountId with
      | none => []
      | some aid =>
        if aid = 0 then []
        else
          let amount := -|s.amountYen|
          if amount = 0 then []
          else
            ((subscriptionOccurrencesInRange hol s.recurFields monthFirstD monthLast).filter
              (fun d => isWithinEffective d s.effectiveStartDate s.effectiveEndDate)).map
              (fun d => ⟨0, userId, d, amount, aid, none,
                some ("サブスク: " ++ s.name), "plan", "expected", none⟩))

/-- The confirmation dictionary of `scheduler.py` (`confirmations_by_key`):
rows restricted to the given definition ids and date window, later rows
overwriting earlier ones, looked up by (definition id, occurrence date). -/
def confLookup (rows : List VariableRecurringConfirmation) (ids : List Nat)
    (lo hi : Date) : Nat → Date → Option Int :=
  (rows.filter (fun c => ids.contains c.variablePaymentId &&
      decide (Date.le lo c.occurrenceDate) && decide (Date.le c.occurrenceDate hi))).foldl
    (fun f c => fun pid d =>
      if pid = c.variablePaymentId ∧ d = c.occurrenceDate then some c.confirmedAmountYen
      else f pid d)
    (fun _ _ => none)

/-- Per-item inner loop of `scheduler.py build_month_variable_recurring_events`. -/
def variableEventsForItem (hol : List Date) (lookup : Nat → Date → Option Int)
    (userId : Nat) (monthFirstD monthLast : Date) (item : VariableRecurringPayment) :
    List CashflowEvent :=
  (subscriptionOccurrencesInRange hol item.recurFields monthFirstD monthLast).filterMap
    (fun d =>
      if isWithinEffective d item.effectiveStartDate item.effectiveEndDate then
        let amountAbs := occurrenceAmountYen item.estimatedAmountYen lookup item.id d
        if amountAbs ≤ 0 then none
        else some ⟨0, userId, d, -|amountAbs|, item.accountId.getD 0, none,
          some ("変動定期: " ++ item.name), "plan", "expected", none⟩
      else none)

/-- `scheduler.py build_month_variable_recurring_events`. -/
def buildMonthVariableRecurringEvents (hol : List Date)
    (varsAll : List VariableRecurringPayment) (confRows : List VariableRecurringConfirmation)
    (userId : Nat) (monthFirstD : Date) : List CashflowEvent :=
  let y := monthFirstD.year
  let m := monthFirstD.month
  let monthLast : Date := ⟨y, m, lastDayOfMonth y m⟩
  let items := varsAll.filter (fun v => v.paymentMethod == "bank" && v.accountId.isSome)
  let lookup := confLookup confRows (items.map (·.id)) monthFirstD monthLast
  items.flatMap (variableEventsForItem hol lookup userId monthFirstD monthLast)

/-! ## Card billing cycle (`scheduler.py`, `card_billing.py`) -/

/-- `scheduler.py card_period_for_withdraw_month`. -/
def cardPeriodForWithdrawMonth (hol : List Date) (card : Card) (wy : Int) (wm : Nat) :
    Date × Date × Date :=
  let e := monthAdd wy wm (-1)
  let periodEnd := resolveDayInMonth e.1 e.2 card.closingDay
  let pe2 := monthAdd e.1 e.2 (-1)
  let prevPeriodEnd := resolveDayInMonth pe2.1 pe2.2 card.closingDay
  let periodStart := prevPeriodEnd.nextDay
  let withdrawDate := applyBusinessDayRule hol (resolveDayInMonth wy wm card.paymentDay) "expense"
  (periodStart, periodEnd, withdrawDate)

/-- `card_billing.py compute_period_for_withdraw_month` (uses `_add_months`
instead of `_month_add`, otherwise identical). -/
def computePeriodForWithdrawMonth (hol : List Date) (card : Card) (wy : Int) (wm : Nat) :
    Date × Date × Date :=
  let e := addMonths wy wm (-1)
  let periodEnd := resolveDayInMonth e.1 e.2 card.closingDay
  let pe2 := addMonths e.1 e.2 (-1)
  let prevPeriodEnd := resolveDayInMonth pe2.1 pe2.2 card.closingDay
  let periodStart := prevPeriodEnd.nextDay
  let withdrawDate := applyBusinessDayRule hol (resolveDayInMonth wy wm card.paymentDay) "expense"
  (periodStart, periodEnd, withdrawDate)

theorem computePeriod_eq_cardPeriod (hol : List Date) (card : Card) (wy : Int) (wm : Nat) :
    computePeriodForWithdrawMonth hol card wy wm = cardPeriodForWithdrawMonth hol card wy wm := by
  simp only [computePeriodForWithdrawMonth, cardPeriodForWithdrawMonth, addMonths_eq_monthAdd]

/-- The closure `_plan_occurs_in_range` inside
`scheduler.py build_card_withdraw_events` (month loop, fuel-bounded). -/
def planOccMonthLoop (hol : List Date) (today : Date) (p : Plan) (start stop : Date) :
    Nat → Date → List Date
  | 0, _ => []
  | n + 1, curFirst =>
    if Date.le curFirst stop then
      let should :=
        if p.freq = "monthly" then true
        else if p.freq = "yearly" then p.month == curFirst.month
        else if p.freq = "monthly_interval" then
          occursMonthlyInterval (p.startDate.getD today) curFirst
            ((if p.intervalMonths = 0 then 1 else p.intervalMonths : Nat) : Int)
        else false
      let here :=
        if should then
          let desired := if p.day = 0 then 1 else p.day
          let ev0 := resolveDayInMonth curFirst.year curFirst.month desired
          let ev := applyBusinessDayRule hol ev0
            (if p.type == "income" then "income" else "expense")
          if (match p.endDate with | some ed => decide (Date.lt ed ev) | none => false) then []
          else if Date.le start ev ∧ Date.le ev stop then [ev] else []
        else []
      let next := monthAdd curFirst.year curFirst.month 1
      here ++ planOccMonthLoop hol today p start stop n ⟨next.1, next.2, 1⟩
    else []

/-- `_plan_occurs_in_range` with its fuel instantiated to cover the range. -/
def planOccursInRange (hol : List Date) (today : Date) (p : Plan) (start stop : Date) :
    List Date :=
  planOccMonthLoop hol today p start stop
    ((monthIndex stop - monthIndex (monthFirst start)).toNat + 1) ⟨start.year, start.month, 1⟩

/-- Raw-transaction term of a card's withdrawal total: transactions inside the
billing period clipped to the card's validity window, zero when the window
does not overlap the period. -/
def cardTxnTotal (txns : List CardTransaction) (card : Card) (periodStart periodEnd : Date) :
    Int :=
  match clipRangeToEffective periodStart periodEnd card.effectiveStartDate card.effectiveEndDate with
  | none => 0
  | some (vs, ve) =>
    ((txns.filter (fun t => t.cardId == card.id && decide (Date.le vs t.date) &&
        decide (Date.le t.date ve))).map (fun t => t.amountYen)).sum

/-- Card-routed plan term of a card's withdrawal total. -/
def cardPlanTotal (hol : List Date) (today : Date) (plans : List Plan) (userId : Nat)
    (card : Card) (periodStart periodEnd : Date) : Int :=
  ((plans.filter (fun p => p.userId == userId && p.paymentMethod == "card" &&
      p.cardId == some card.id)).map (fun p =>
    if p.type == "income" then 0
    else |p.amountYen| * ((planOccursInRange hol today p periodStart periodEnd).filter
      (fun d => isWithinEffective d card.effectiveStartDate card.effectiveEndDate)).length)).sum

/-- Card-routed subscription term of a card's withdrawal total. -/
def cardSubTotal (hol : List Date) (subs : List Subscription) (card : Card)
    (periodStart periodEnd : Date) : Int :=
  ((subs.filter (fun s => s.paymentMethod == "card" && s.cardId == some card.id)).map
    (fun s =>
      let amount : Int := |s.amountYen|
      if amount ≤ 0 then 0
      else amount * ((subscriptionOccurrencesInRange hol s.recurFields periodStart periodEnd).filter
        (fun d => isWithinEffective d card.effectiveStartDate card.effectiveEndDate &&
          isWithinEffective d s.effectiveStartDate s.effectiveEndDate)).length)).sum

/-- Card-routed variable-recurring term of a card's withdrawal total. -/
def cardVarTotal (hol : List Date) (varsAll : List VariableRecurringPayment)
    (confRows : List VariableRecurringConfirmation) (card : Card)
    (periodStart periodEnd : Date) : Int :=
  let items := varsAll.filter (fun v => v.paymentMethod == "card" && v.cardId == some card.id)
  let lookup := confLookup confRows (items.map (·.id)) periodStart periodEnd
  (items.map (fun item =>
    (((subscriptionOccurrencesInRange hol item.recurFields periodStart periodEnd).filter
      (fun d => isWithinEffective d card.effectiveStartDate card.effectiveEndDate &&
        isWithinEffective d item.effectiveStartDate item.effectiveEndDate)).map
      (fun d => occurrenceAmountYen item.estimatedAmountYen lookup item.id d)).sum)).sum

/-- Revolving term: dues keyed by the withdrawal month. -/
def cardRevolvingTotal (revs : List CardRevolving) (card : Card)
    (withdrawMonthFirst : Date) : Int :=
  ((revs.filter (fun r => r.cardId == card.id)).map
    (fun r => revolvingDueForMonth r withdrawMonthFirst)).sum

/-- Installment term: dues keyed by the withdrawal month. -/
def cardInstallmentTotal (insts : List CardInstallment) (card : Card)
    (withdrawMonthFirst : Date) : Int :=
  ((insts.filter (fun i => i.cardId == card.id)).map
    (fun i => installmentDueForMonth i withdrawMonthFirst)).sum

/-- The input tables read by the builders (one SQLAlchemy session's view of
the definition / transaction stores). -/
structure Tables where
  plans : List Plan
  subscriptions : List Subscription
  variablePayments : List VariableRecurringPayment
  confirmations : List VariableRecurringConfirmation
  accounts : List Account
  cards : List Card
  cardTransactions : List CardTransaction
  cardRevolvings : List CardRevolving
  cardInstallments : List CardInstallment

/-- The running `total` accumulated by
`scheduler.py build_card_withdraw_events` for one card and withdrawal month. -/
def cardWithdrawTotal (hol : List Date) (t : Tables) (userId : Nat) (card : Card)
    (wy : Int) (wm : Nat) (today : Date) : Int :=
  let per := cardPeriodForWithdrawMonth hol card wy wm
  let withdrawMonthFirst : Date := ⟨wy, wm, 1⟩
  cardTxnTotal t.cardTransactions card per.1 per.2.1
    + cardPlanTotal hol today t.plans userId card per.1 per.2.1
    + cardSubTotal hol t.subscriptions card per.1 per.2.1
    + cardVarTotal hol t.variablePayments t.confirmations card per.1 per.2.1
    + cardRevolvingTotal t.cardRevolvings card withdrawMonthFirst
    + cardInstallmentTotal t.cardInstallments card withdrawMonthFirst

/-- `scheduler.py build_card_withdraw_events` (the returned event list; the
statement upsert side effect is `updateStatementsForMonth` below). -/
def buildCardWithdrawEvents (hol : List Date) (t : Tables) (userId : Nat)
    (wy : Int) (wm : Nat) (today : Date) : List CashflowEvent :=
  t.cards.map (fun card =>
    let per := cardPeriodForWithdrawMonth hol card wy wm
    let total := cardWithdrawTotal hol t userId card wy wm today
    ⟨0, userId, per.2.2, -|total|, card.paymentAccountId, none,
      some ("カード引落: " ++ card.name ++ " (" ++ isoString per.1 ++ "〜" ++ isoString per.2.1 ++ ")"),
      "card", "expected", none⟩)

/-- The `CardStatement` upsert of `build_card_withdraw_events`. -/
def upsertStatement (stmts : List CardStatement) (cardId : Nat) (ps pe : Date)
    (total : Int) (wd : Date) : List CardStatement :=
  if stmts.any (fun s => s.cardId == cardId && s.withdrawDate == wd) then
    stmts.map (fun s =>
      if s.cardId == cardId && s.withdrawDate == wd then
        { s with periodStart := ps, periodEnd := pe, amountYen := total }
      else s)
  else stmts ++ [⟨cardId, ps, pe, total, wd⟩]

/-- Statement updates performed by one `build_card_withdraw_events` call. -/
def updateStatementsForMonth (hol : List Date) (t : Tables) (userId : Nat)
    (wy : Int) (wm : Nat) (today : Date) (stmts : List CardStatement) : List CardStatement :=
  t.cards.foldl (fun acc card =>
    let per := cardPeriodForWithdrawMonth hol card wy wm
    upsertStatement acc card.id per.1 per.2.1
      (cardWithdrawTotal hol t userId card wy wm today) per.2.2) stmts

/-! ## Rebuild (`scheduler.py rebuild_events`) -/

/-- One database state: the read-only input tables plus the two stores the
rebuild writes (statements and the cash-flow event ledger). -/
structure DB where
  tables : Tables
  cardStatements : List CardStatement
  events : List CashflowEvent

/-- `scheduler.py rebuild_events`: delete the user's events whose source is
`plan` or `card`, regenerate three months (current + next two, relative to
`today`) of plan, subscription, variable-recurring and card-withdrawal
events, and upsert the card statements. -/
def rebuildNewEvents (hol : List Date) (t : Tables) (userId : Nat) (today : Date) :
    List CashflowEvent :=
  let thisFirst : Date := ⟨today.year, today.month, 1⟩
  let n1 := monthAdd thisFirst.year thisFirst.month 1
  let nextFirst : Date := ⟨n1.1, n1.2, 1⟩
  let n2 := monthAdd thisFirst.year thisFirst.month 2
  let next2First : Date := ⟨n2.1, n2.2, 1⟩
  buildMonthEvents hol t.plans userId thisFirst today
    ++ buildMonthEvents hol t.plans userId nextFirst today
    ++ buildMonthEvents hol t.plans userId next2First today
    ++ buildMonthSubscriptionEvents hol t.subscriptions userId thisFirst
    ++ buildMonthSubscriptionEvents hol t.subscriptions userId nextFirst
    ++ buildMonthSubscriptionEvents hol t.subscriptions userId next2First
    ++ buildMonthVariableRecurringEvents hol t.variablePayments t.confirmations userId thisFirst
    ++ buildMonthVariableRecurringEvents hol t.variablePayments t.confirmations userId nextFirst
    ++ buildMonthVariableRecurringEvents hol t.variablePayments t.confirmations userId next2First
    ++ buildCardWithdrawEvents hol t userId thisFirst.year thisFirst.month today
    ++ buildCardWithdrawEvents hol t userId nextFirst.year nextFirst.month today
    ++ buildCardWithdrawEvents hol t userId next2First.year next2First.month today

/-- The statement upserts performed by one rebuild (current month + next two). -/
def rebuildNewStatements (hol : List Date) (t : Tables) (userId : Nat) (today : Date)
    (stmts : List CardStatement) : List CardStatement :=
  let thisFirst : Date := ⟨today.year, today.month, 1⟩
  let n1 := monthAdd thisFirst.year thisFirst.month 1
  let nextFirst : Date := ⟨n1.1, n1.2, 1⟩
  let n2 := monthAdd thisFirst.year thisFirst.month 2
  let next2First : Date := ⟨n2.1, n2.2, 1⟩
  updateStatementsForMonth hol t userId next2First.year next2First.month today
    (updateStatementsForMonth hol t userId nextFirst.year nextFirst.month today
      (updateStatementsForMonth hol t userId thisFirst.year thisFirst.month today stmts))

def rebuildEvents (hol : List Date) (db : DB) (userId : Nat) (today : Date) : DB :=
  let kept := db.events.filter (fun e =>
    !(e.userId == userId && (e.source == "plan" || e.source == "card")))
  { db with
      events := kept ++ rebuildNewEvents hol db.tables userId today
      cardStatements := rebuildNewStatements hol db.tables userId today db.cardStatements }

/-! ## Forecast / simulation engine (`app/services/forecast.py`) -/

/-- One point of a forecast series (`{date, balance_yen, delta_yen, event_id}`;
the ISO date string of the output is represented by the date value itself). -/
structure FPoint where
  date : Date
  balanceYen : Int
  deltaYen : Int
  eventId : Option Nat
deriving DecidableEq, Repr

/-- `forecast.py _is_account_active_on`. -/
def isAccountActiveOn (a : Account) (d : Date) : Bool :=
  (match a.effectiveStartDate with | some s => decide (Date.le s d) | none => true) &&
  (match a.effectiveEndDate with | some e => decide (Date.le d e) | none => true)

/-- An activation/deactivation marker of the forecast timeline. -/
inductive Marker
  | activate (date : Date) (accountId : Nat) (balanceYen : Int)
  | deactivate (date : Date) (accountId : Nat)
deriving DecidableEq, Repr

def Marker.date : Marker → Date
  | .activate d _ _ => d
  | .deactivate d _ => d

def Marker.accountId : Marker → Nat
  | .activate _ aid _ => aid
  | .deactivate _ aid => aid

/-- The markers contributed by one account (`marker_by_date` construction):
an activation on `effective_start` when it falls inside `(start, stop]`, a
deactivation the day after `effective_end` when that falls inside `(start, stop]`. -/
def markersOfAccount (start stop : Date) (a : Account) : List Marker :=
  (match a.effectiveStartDate with
   | some sd =>
     if Date.lt start sd ∧ Date.le sd stop then [Marker.activate sd a.id a.balanceYen] else []
   | none => []) ++
  (match a.effectiveEndDate with
   | some e =>
     let dd := e.nextDay
     if Date.lt start dd ∧ Date.le dd stop then [Marker.deactivate dd a.id] else []
   | none => [])

/-- `marker_by_date.get(d, [])`: the markers of one date, in account order. -/
def markersAt (accs : List Account) (start stop : Date) (d : Date) : List Marker :=
  (accs.flatMap (markersOfAccount start stop)).filter (fun mk => mk.date = d)

/-- Insertion into an id-sorted account list (Python `order_by(Account.id)`). -/
def insertAccountSorted (a : Account) : List Account → List Account
  | [] => [a]
  | x :: xs => if a.id ≤ x.id then a :: x :: xs else x :: insertAccountSorted a xs

def sortAccountsById (l : List Account) : List Account := l.foldr insertAccountSorted []

/-- `account_by_id.get(aid)`: dictionary built in list order, later entries
overwriting earlier ones. -/
def lookupAccount (accs : List Account) (aid : Nat) : Option Account :=
  (accs.filter (fun b => b.id == aid)).getLast?

/-- The starting balance assigned per account id: the stored balance if the
account is active on the range start, else zero. -/
def forecastStartBalance (accs : List Account) (start : Date) (aid : Nat) : Int :=
  match lookupAccount accs aid with
  | some a => if isAccountActiveOn a start then a.balanceYen else 0
  | none => 0

/-- `sum(start_balances.values())`: one summand per distinct account id. -/
def forecastTotal0 (accs : List Account) (start : Date) : Int :=
  (((accs.map (fun a => a.id)).dedup).map (forecastStartBalance accs start)).sum

/-- Running state of the simulation loop: balances and total, plus the
per-account and total series accumulated so far. -/
structure SimState where
  bal : Nat → Int
  total : Int
  ser : Nat → List FPoint
  totalSer : List FPoint

/-- Processing of one marker (balance jump to the stored value or to zero). -/
def applyMarker (accs : List Account) (s : SimState) (mk : Marker) : SimState :=
  let aid := mk.accountId
  if (accs.map (fun a => a.id)).contains aid then
    let before := s.bal aid
    let after : Int := match mk with | .activate _ _ b => b | .deactivate _ _ => 0
    let delta := after - before
    { bal := fun i => if i = aid then after else s.bal i
      total := s.total + delta
      ser := fun i => if i = aid then s.ser i ++ [⟨mk.date, after, delta, none⟩] else s.ser i
      totalSer := s.totalSer ++ [⟨mk.date, s.total + delta, delta, none⟩] }
  else s

/-- Processing of one event: skipped when its account is unknown or inactive
on the event date, otherwise added to the account balance and the total. -/
def applyEvent (accs : List Account) (s : SimState) (ev : CashflowEvent) : SimState :=
  match lookupAccount accs ev.accountId with
  | none => s
  | some acc =>
    if isAccountActiveOn acc ev.date then
      let aid := ev.accountId
      let delta := ev.amountYen
      { bal := fun i => if i = aid then s.bal aid + delta else s.bal i
        total := s.total + delta
        ser := fun i =>
          if i = aid then s.ser i ++ [⟨ev.date, s.bal aid + delta, delta, some ev.id⟩]
          else s.ser i
        totalSer := s.totalSer ++ [⟨ev.date, s.total + delta, delta, some ev.id⟩] }
    else s

/-- One timeline date: markers first, then the events of the date. -/
def processDate (accs : List Account) (start stop : Date) (evs : List CashflowEvent)
    (s : SimState) (d : Date) : SimState :=
  let s1 := (markersAt accs start stop d).foldl (applyMarker accs) s
  (evs.filter (fun e => e.date == d)).foldl (applyEvent accs) s1

/-- Ordering key of the event query: `(date, id)` ascending. -/
def eventKeyLe (e1 e2 : CashflowEvent) : Bool :=
  decide (Date.lt e1.date e2.date) || (e1.date == e2.date && decide (e1.id ≤ e2.id))

def insertEventSorted (e : CashflowEvent) : List CashflowEvent → List CashflowEvent
  | [] => [e]
  | x :: xs => if eventKeyLe e x then e :: x :: xs else x :: insertEventSorted e xs

def sortEvents (l : List CashflowEvent) : List CashflowEvent := l.foldr insertEventSorted []

/-- Initial simulation state (start balances; optional start points). -/
def forecastInit (accs : List Account) (start : Date) (includeStartPoint : Bool) : SimState :=
  { bal := forecastStartBalance accs start
    total := forecastTotal0 accs start
    ser := fun aid =>
      if includeStartPoint && (accs.map (fun a => a.id)).contains aid then
        [⟨start, forecastStartBalance accs start aid, 0, none⟩]
      else []
    totalSer :=
      if includeStartPoint then [⟨start, forecastTotal0 accs start, 0, none⟩] else [] }

/-- `forecast.py forecast_by_account_events`: the full simulation state after
replaying the timeline (markers + expected events of the range, date-ordered). -/
def forecastRun (accsRaw : List Account) (eventsRaw : List CashflowEvent) (userId : Nat)
    (start stop : Date) (includeStartPoint : Bool) : SimState :=
  let accs := sortAccountsById (accsRaw.filter (fun a => a.userId == userId))
  let evs := sortEvents (eventsRaw.filter (fun e => e.userId == userId &&
    decide (Date.le start e.date) && decide (Date.le e.date stop) && e.status == "expected"))
  let allMarkers := accs.flatMap (markersOfAccount start stop)
  let dates := sortedUnique (evs.map (fun e => e.date) ++ allMarkers.map Marker.date)
  dates.foldl (processDate accs start stop evs) (forecastInit accs start includeStartPoint)

/-- `forecast.py _daterange`, fuel-bounded (the fuel covers the whole range). -/
def dateRangeAux (stop : Date) : Nat → Date → List Date
  | 0, _ => []
  | n + 1, cur => if Date.le cur stop then cur :: dateRangeAux stop n cur.nextDay else []

def dateRangeList (start stop : Date) : List Date :=
  dateRangeAux stop ((stop.toDays - start.toDays).toNat + 1) start

/-- The daily fill of `forecast_by_account_daily`: hold the last known balance
constant between event-level points (`bal_by_date` keeps the last point of
each date). -/
def dailyLoop (pts : List FPoint) : Int → List Date → List (Date × Int)
  | _, [] => []
  | last, d :: rest =>
    let lastNext := match (pts.filter (fun p => p.date == d)).getLast? with
      | some p => p.balanceYen
      | none => last
    (d, lastNext) :: dailyLoop pts lastNext rest

/-- One account's daily series in `forecast_by_account_daily`. -/
def accountDailySeries (accs : List Account) (run : SimState) (start stop : Date)
    (aid : Nat) : List (Date × Int) :=
  dailyLoop (run.ser aid) (forecastStartBalance accs start aid) (dateRangeList start stop)

/-- Pointwise addition of two daily series over the same date list
(`total_by_date` accumulation; every account's daily series enumerates
exactly the dates of the range, in order). -/
def addSeriesPoints : List (Date × Int) → List (Date × Int) → List (Date × Int)
  | [], ys => ys
  | xs, [] => xs
  | (d, x) :: xs, (_, y) :: ys => (d, x + y) :: addSeriesPoints xs ys

/-- The aggregate daily series of `forecast_by_account_daily` /
`forecast_free_daily`: per-date sum of all accounts' daily balances. -/
def forecastTotalDaily (accsRaw : List Account) (eventsRaw : List CashflowEvent)
    (userId : Nat) (start stop : Date) : List (Date × Int) :=
  let accs := sortAccountsById (accsRaw.filter (fun a => a.userId == userId))
  let run := forecastRun accsRaw eventsRaw userId start stop true
  let base := (dateRangeList start stop).map (fun d => (d, (0 : Int)))
  (accs.map (fun a => accountDailySeries accs run start stop a.id)).foldl addSeriesPoints base

/-- Value of a daily series at a date (0 when the date is absent). -/
def seriesValueAt (l : List (Date × Int)) (d : Date) : Int :=
  match l.find? (fun p => p.1 == d) with
  | some p => p.2
  | none => 0

/-! ## Helper lemmas for the amortization claims -/

/-- The first day of the month `j` months after the month of `d`. -/
def monthAtOffset (d : Date) (j : Nat) : Date :=
  let n := monthAdd d.year d.month (j : Int)
  ⟨n.1, n.2, 1⟩

theorem monthIndex_monthAtOffset (d : Date) (j : Nat) :
    monthIndex (monthAtOffset d j) = monthIndex (monthFirst d) + (j : Int) := by
  simp only [monthAtOffset, monthAdd, monthIndex, monthFirst]
  have hmod : (0 : Int) ≤ (d.year * 12 + ((d.month : Int) - 1) + (j : Int)) % 12 :=
    Int.emod_nonneg _ (by norm_num)
  rw [Int.toNat_of_nonneg hmod |>.symm]
  push_cast
  rw [Int.toNat_of_nonneg hmod]
  have := Int.ediv_add_emod (d.year * 12 + ((d.month : Int) - 1) + (j : Int)) 12
  omega

theorem installment_due_as_offset (item : CardInstallment) (N T : Int)
    (hM : item.months = N) (hN : 1 ≤ N) (hT : item.totalAmountYen = T) (hT0 : 0 < T)
    (mf : Date) :
    installmentDueForMonth item mf =
      (if 0 ≤ monthIndex mf - monthIndex (monthFirst item.startMonth) ∧
          monthIndex mf - monthIndex (monthFirst item.startMonth) < N then
        T / N + (if monthIndex mf - monthIndex (monthFirst item.startMonth) < T % N then 1
          else 0)
      else 0) := by
  simp only [installmentDueForMonth, hM, hT]
  rw [abs_of_nonneg (le_of_lt hT0), max_eq_right hN]
  rw [if_neg (by omega : ¬ T ≤ 0)]
  split_ifs <;> omega

theorem installment_sum_aux (N T : Int) (hN : 1 ≤ N) (n : Nat) :
    ((List.range n).map (fun j : Nat => T / N + (if (j : Int) < T % N then 1 else 0))).sum
      = n * (T / N) + min (n : Int) (T % N) := by
  have hmod0 : 0 ≤ T % N := Int.emod_nonneg T (by omega)
  induction n with
  | zero =>
    simp only [List.range_zero, List.map_nil, List.sum_nil, Nat.cast_zero, zero_mul, zero_add]
    rw [min_eq_left hmod0]
  | succ k ih =>
    rw [List.range_succ, List.map_append, List.sum_append, ih]
    simp only [List.map_cons, List.map_nil, List.sum_cons, List.sum_nil, add_zero]
    push_cast
    rw [add_mul, one_mul]
    rcases le_or_lt ((k : Int) + 1) (T % N) with hm | hm
    · rw [min_eq_left hm, min_eq_left (by omega : (k : Int) ≤ T % N),
        if_pos (by omega : (k : Int) < T % N)]
      ring
    · rw [min_eq_right (by omega : T % N ≤ (k : Int) + 1),
        min_eq_right (by omega : T % N ≤ (k : Int)),
        if_neg (by omega : ¬ (k : Int) < T % N)]
      ring

/-- C2: installment dues equal the floor share plus one extra unit for the
earliest `total mod months` offsets, are zero outside `[0, months)`, and the
dues over the schedule's `months` months sum exactly to `total`. -/
theorem C2_installment_exactness (item : CardInstallment) (N T : Int)
    (hM : item.months = N) (hN : 1 ≤ N) (hT : item.totalAmountYen = T) (hT0 : 0 < T) :
    (∀ mf : Date, 0 ≤ monthIndex mf - monthIndex (monthFirst item.startMonth) →
        monthIndex mf - monthIndex (monthFirst item.startMonth) < N →
        installmentDueForMonth item mf =
          T / N + (if monthIndex mf - monthIndex (monthFirst item.startMonth) < T % N then 1
            else 0)) ∧
    (∀ mf : Date, (monthIndex mf - monthIndex (monthFirst item.startMonth) < 0 ∨
        N ≤ monthIndex mf - monthIndex (monthFirst item.startMonth)) →
        installmentDueForMonth item mf = 0) ∧
    ((List.range N.toNat).map
        (fun j : Nat => installmentDueForMonth item (monthAtOffset item.startMonth j))).sum
      = T := by
  refine ⟨?_, ?_, ?_⟩
  · intro mf h0 h1
    rw [installment_due_as_offset item N T hM hN hT hT0 mf]
    simp only [if_pos (And.intro h0 h1)]
  · intro mf h
    rw [installment_due_as_offset item N T hM hN hT hT0 mf]
    have hns : ¬ (0 ≤ monthIndex mf - monthIndex (monthFirst item.startMonth) ∧
        monthIndex mf - monthIndex (monthFirst item.startMonth) < N) := by omega
    simp only [if_neg hns]
  · have hrw : ∀ j ∈ List.range N.toNat,
        installmentDueForMonth item (monthAtOffset item.startMonth j) =
          T / N + (if (j : Int) < T % N then 1 else 0) := by
      intro j hj
      rw [installment_due_as_offset item N T hM hN hT hT0]
      have hoff : monthIndex (monthAtOffset item.startMonth j) -
          monthIndex (monthFirst item.startMonth) = (j : Int) := by
        rw [monthIndex_monthAtOffset]; ring
      rw [hoff]
      have hjN : (j : Int) < N := by
        have := List.mem_range.mp hj
        omega
      rw [if_pos (And.intro (Int.ofNat_nonneg j) hjN)]
    rw [List.map_congr_left hrw, installment_sum_aux N T hN N.toNat]
    have hdm := Int.ediv_add_emod T N
    have hmodlt : T % N < N := Int.emod_lt_of_pos T (by omega)
    have hmod0 : 0 ≤ T % N := Int.emod_nonneg T (by omega)
    have hNt : (N.toNat : Int) = N := Int.toNat_of_nonneg (by omega)
    rw [hNt, min_eq_right (le_of_lt hmodlt)]
    omega

/-- Witness for C2 at the spec's example: total 1000 over 3 months gives
shares 334, 333, 333 summing to 1000 exactly. -/
theorem C2_installment_exactness_witness :
    (((List.range (3 : Int).toNat).map
        (fun j : Nat => installmentDueForMonth ⟨1, ⟨2026, 1, 1⟩, 3, 1000⟩
          (monthAtOffset (⟨2026, 1, 1⟩ : Date) j))).sum = 1000) ∧
    installmentDueForMonth ⟨1, ⟨2026, 1, 1⟩, 3, 1000⟩ ⟨2026, 1, 1⟩ = 334 ∧
    installmentDueForMonth ⟨1, ⟨2026, 1, 1⟩, 3, 1000⟩ ⟨2026, 2, 1⟩ = 333 ∧
    installmentDueForMonth ⟨1, ⟨2026, 1, 1⟩, 3, 1000⟩ ⟨2026, 3, 1⟩ = 333 ∧
    installmentDueForMonth ⟨1, ⟨2026, 1, 1⟩, 3, 1000⟩ ⟨2026, 4, 1⟩ = 0 :=
  ⟨(C2_installment_exactness ⟨1, ⟨2026, 1, 1⟩, 3, 1000⟩ 3 1000 rfl (by norm_num) rfl
      (by norm_num)).2.2,
    by decide, by decide, by decide, by decide⟩

theorem revolving_due_as_offset (item : CardRevolving) (R P : Int)
    (hR : item.remainingYen = R) (hP : item.monthlyPaymentYen = P)
    (hR0 : 0 < R) (hP0 : 0 < P) (mf : Date) :
    revolvingDueForMonth item mf =
      (if 0 ≤ monthIndex mf - monthIndex (monthFirst item.startMonth) ∧
          P * (monthIndex mf - monthIndex (monthFirst item.startMonth)) < R then
        min P (R - P * (monthIndex mf - monthIndex (monthFirst item.startMonth)))
      else 0) := by
  simp only [revolvingDueForMonth, hR, hP]
  rw [abs_of_nonneg (le_of_lt hR0), abs_of_nonneg (le_of_lt hP0)]
  rw [if_neg (by omega : ¬ (R ≤ 0 ∨ P ≤ 0))]
  split_ifs <;> omega

theorem revolving_sum_aux (R P : Int) (hR0 : 0 < R) (hP0 : 0 < P) (n : Nat) :
    ((List.range n).map (fun j : Nat =>
        if 0 ≤ (j : Int) ∧ P * (j : Int) < R then min P (R - P * (j : Int)) else 0)).sum
      = min (P * (n : Int)) R := by
  induction n with
  | zero =>
    simp only [List.range_zero, List.map_nil, List.sum_nil, Nat.cast_zero, mul_zero]
    rw [min_eq_left (le_of_lt hR0)]
  | succ k ih =>
    rw [List.range_succ, List.map_append, List.sum_append, ih]
    simp only [List.map_cons, List.map_nil, List.sum_cons, List.sum_nil, add_zero]
    push_cast
    rw [mul_add, mul_one]
    by_cases h1 : P * (k : Int) < R
    · rw [if_pos (And.intro (Int.ofNat_nonneg k) h1), min_eq_left (le_of_lt h1)]
      by_cases h2 : P * (k : Int) + P ≤ R
      · rw [min_eq_left (by omega : P ≤ R - P * (k : Int)), min_eq_left h2]
      · rw [min_eq_right (by omega : R - P * (k : Int) ≤ P),
          min_eq_right (by omega : R ≤ P * (k : Int) + P)]
        omega
    · rw [if_neg (by omega : ¬ (0 ≤ (k : Int) ∧ P * (k : Int) < R)),
        min_eq_right (by omega : R ≤ P * (k : Int)),
        min_eq_right (by omega : R ≤ P * (k : Int) + P), add_zero]

/-- C6: revolving due is `min(monthlyPayment, remaining - monthlyPayment*offset)`
inside the payoff, zero for negative offsets or once the payments cover the
remaining amount, never exceeds the monthly payment, and the dues from the
start month up to the first zero month sum exactly to the remaining amount. -/
theorem C6_revolving_payoff (item : CardRevolving) (R P : Int)
    (hR : item.remainingYen = R) (hP : item.monthlyPaymentYen = P)
    (hR0 : 0 < R) (hP0 : 0 < P) :
    (∀ mf : Date, 0 ≤ monthIndex mf - monthIndex (monthFirst item.startMonth) →
        P * (monthIndex mf - monthIndex (monthFirst item.startMonth)) < R →
        revolvingDueForMonth item mf =
          min P (R - P * (monthIndex mf - monthIndex (monthFirst item.startMonth)))) ∧
    (∀ mf : Date, (monthIndex mf - monthIndex (monthFirst item.startMonth) < 0 ∨
        R ≤ P * (monthIndex mf - monthIndex (monthFirst item.startMonth))) →
        revolvingDueForMonth item mf = 0) ∧
    (∀ mf : Date, revolvingDueForMonth item mf ≤ P) ∧
    (∀ j : Nat, j < ((R + P - 1) / P).toNat →
        0 < revolvingDueForMonth item (monthAtOffset item.startMonth j)) ∧
    revolvingDueForMonth item (monthAtOffset item.startMonth ((R + P - 1) / P).toNat) = 0 ∧
    ((List.range ((R + P - 1) / P).toNat).map
        (fun j : Nat => revolvingDueForMonth item (monthAtOffset item.startMonth j))).sum
      = R := by
  have hdm := Int.ediv_add_emod (R + P - 1) P
  have hm0 : 0 ≤ (R + P - 1) % P := Int.emod_nonneg _ (by omega)
  have hmlt : (R + P - 1) % P < P := Int.emod_lt_of_pos _ (by omega)
  have hcover2 : R ≤ P * ((R + P - 1) / P) := by omega
  have hq1 : 1 ≤ (R + P - 1) / P := by nlinarith [hdm, hm0, hmlt, hcover2]
  have hqc : ((((R + P - 1) / P).toNat : Int)) = (R + P - 1) / P :=
    Int.toNat_of_nonneg (by omega)
  have hexp : P * ((R + P - 1) / P - 1) = P * ((R + P - 1) / P) - P := by ring
  have hlast : P * ((R + P - 1) / P - 1) < R := by omega
  have hoffset : ∀ j : Nat, monthIndex (monthAtOffset item.startMonth j) -
      monthIndex (monthFirst item.startMonth) = (j : Int) := by
    intro j
    rw [monthIndex_monthAtOffset]; ring
  refine ⟨?_, ?_, ?_, ?_, ?_, ?_⟩
  · intro mf h0 h1
    rw [revolving_due_as_offset item R P hR hP hR0 hP0 mf, if_pos (And.intro h0 h1)]
  · intro mf h
    rw [revolving_due_as_offset item R P hR hP hR0 hP0 mf,
      if_neg (by omega : ¬ (0 ≤ monthIndex mf - monthIndex (monthFirst item.startMonth) ∧
        P * (monthIndex mf - monthIndex (monthFirst item.startMonth)) < R))]
  · intro mf
    rw [revolving_due_as_offset item R P hR hP hR0 hP0 mf]
    split
    · exact min_le_left _ _
    · omega
  · intro j hj
    rw [revolving_due_as_offset item R P hR hP hR0 hP0, hoffset j]
    have hjq : (j : Int) ≤ (R + P - 1) / P - 1 := by omega
    have hPj : P * (j : Int) < R := by
      calc P * (j : Int) ≤ P * ((R + P - 1) / P - 1) :=
            mul_le_mul_of_nonneg_left hjq (by omega)
        _ < R := hlast
    rw [if_pos (And.intro (Int.ofNat_nonneg j) hPj)]
    exact lt_min hP0 (by omega)
  · rw [revolving_due_as_offset item R P hR hP hR0 hP0, hoffset, hqc]
    rw [if_neg (by omega : ¬ (0 ≤ (R + P - 1) / P ∧ P * ((R + P - 1) / P) < R))]
  · have hrw : ∀ j ∈ List.range ((R + P - 1) / P).toNat,
        revolvingDueForMonth item (monthAtOffset item.startMonth j) =
          (if 0 ≤ (j : Int) ∧ P * (j : Int) < R then min P (R - P * (j : Int)) else 0) := by
      intro j _
      rw [revolving_due_as_offset item R P hR hP hR0 hP0, hoffset j]
    rw [List.map_congr_left hrw, revolving_sum_aux R P hR0 hP0, hqc]
    exact min_eq_right hcover2

/-- Witness for C6: remaining 2500 at monthly payment 1000 pays off as
1000, 1000, 500 over the three months from the start, then 0; the sum is
exactly the remaining amount. -/
theorem C6_revolving_payoff_witness :
    (((List.range ((2500 + 1000 - 1) / 1000 : Int).toNat).map
        (fun j : Nat => revolvingDueForMonth ⟨1, ⟨2026, 1, 1⟩, 2500, 1000⟩
          (monthAtOffset (⟨2026, 1, 1⟩ : Date) j))).sum = 2500) ∧
    revolvingDueForMonth ⟨1, ⟨2026, 1, 1⟩, 2500, 1000⟩ ⟨2026, 1, 1⟩ = 1000 ∧
    revolvingDueForMonth ⟨1, ⟨2026, 1, 1⟩, 2500, 1000⟩ ⟨2026, 2, 1⟩ = 1000 ∧
    revolvingDueForMonth ⟨1, ⟨2026, 1, 1⟩, 2500, 1000⟩ ⟨2026, 3, 1⟩ = 500 ∧
    revolvingDueForMonth ⟨1, ⟨2026, 1, 1⟩, 2500, 1000⟩ ⟨2026, 4, 1⟩ = 0 :=
  ⟨(C6_revolving_payoff ⟨1, ⟨2026, 1, 1⟩, 2500, 1000⟩ 2500 1000 rfl rfl (by norm_num)
      (by norm_num)).2.2.2.2.2,
    by decide, by decide, by decide, by decide⟩

/-! ## C9: the business-day rule's direction guarantees -/

theorem shiftNextAux_eq_self (hol : List Date) (n : Nat) (d : Date)
    (hb : isBusinessDay hol d = true) : shiftNextAux hol n d = d := by
  cases n with
  | zero => rfl
  | succ k => simp [shiftNextAux, hb]

theorem shiftPrevAux_eq_self (hol : List Date) (n : Nat) (d : Date)
    (hb : isBusinessDay hol d = true) : shiftPrevAux hol n d = d := by
  cases n with
  | zero => rfl
  | succ k => simp [shiftPrevAux, hb]

theorem shiftNextAux_gt (hol : List Date) (n : Nat) (d : Date) (hn : 0 < n)
    (hb : isBusinessDay hol d = false) : Date.lt d (shiftNextAux hol n d) := by
  cases n with
  | zero => omega
  | succ k =>
    simp only [shiftNextAux, hb, Bool.false_eq_true, if_false]
    exact Date.lt_of_lt_of_le (Date.lt_nextDay d) (shiftNextAux_le hol k d.nextDay)

theorem shiftPrevAux_lt (hol : List Date) (n : Nat) (d : Date) (hn : 0 < n)
    (hb : isBusinessDay hol d = false) : Date.lt (shiftPrevAux hol n d) d := by
  cases n with
  | zero => omega
  | succ k =>
    simp only [shiftPrevAux, hb, Bool.false_eq_true, if_false]
    exact Date.lt_of_le_of_lt (shiftPrevAux_le hol k d.prevDay) (Date.prevDay_lt d)

/-- C9: the income-adjusted date never falls after the raw date, the
expense-adjusted date never falls before it; both fix business days, and both
move strictly (backward resp. forward) on a weekend or holiday. -/
theorem C9_business_day_rule_directions (hol : List Date) (d : Date) :
    Date.le (applyBusinessDayRule hol d "income") d ∧
    Date.le d (applyBusinessDayRule hol d "expense") ∧
    (isBusinessDay hol d = true →
      applyBusinessDayRule hol d "income" = d ∧ applyBusinessDayRule hol d "expense" = d) ∧
    (isBusinessDay hol d = false →
      Date.lt (applyBusinessDayRule hol d "income") d ∧
      Date.lt d (applyBusinessDayRule hol d "expense")) := by
  have hfuel : 0 < shiftFuel hol := by
    simp only [shiftFuel]
    omega
  refine ⟨?_, ?_, fun hb => ⟨?_, ?_⟩, fun hb => ⟨?_, ?_⟩⟩
  · simpa [applyBusinessDayRule, shiftToBusinessDayPrev] using
      shiftPrevAux_le hol (shiftFuel hol) d
  · simpa [applyBusinessDayRule, shiftToBusinessDayNext] using
      shiftNextAux_le hol (shiftFuel hol) d
  · simpa [applyBusinessDayRule, shiftToBusinessDayPrev] using
      shiftPrevAux_eq_self hol (shiftFuel hol) d hb
  · simpa [applyBusinessDayRule, shiftToBusinessDayNext] using
      shiftNextAux_eq_self hol (shiftFuel hol) d hb
  · simpa [applyBusinessDayRule, shiftToBusinessDayPrev] using
      shiftPrevAux_lt hol (shiftFuel hol) d hfuel hb
  · simpa [applyBusinessDayRule, shiftToBusinessDayNext] using
      shiftNextAux_gt hol (shiftFuel hol) d hfuel hb

/-- Witness for C9: 2026-02-27 (a Friday) is fixed by both rules; 2026-02-28
(a Saturday) is moved strictly backward by the income rule and strictly
forward by the expense rule. -/
theorem C9_business_day_rule_directions_witness :
    (applyBusinessDayRule [] ⟨2026, 2, 27⟩ "income" = ⟨2026, 2, 27⟩ ∧
      applyBusinessDayRule [] ⟨2026, 2, 27⟩ "expense" = ⟨2026, 2, 27⟩) ∧
    (Date.lt (applyBusinessDayRule [] ⟨2026, 2, 28⟩ "income") ⟨2026, 2, 28⟩ ∧
      Date.lt (⟨2026, 2, 28⟩ : Date) (applyBusinessDayRule [] ⟨2026, 2, 28⟩ "expense")) :=
  ⟨(C9_business_day_rule_directions [] ⟨2026, 2, 27⟩).2.2.1 (by decide),
    (C9_business_day_rule_directions [] ⟨2026, 2, 28⟩).2.2.2 (by decide)⟩

/-! ## C5: example card-billing scenario (closing day 15, payment day 27) -/

def exampleCardC5 : Card := ⟨1, "C", 15, 27, 1, none, none⟩

def exampleTablesC5 : Tables :=
  ⟨[], [], [], [], [], [exampleCardC5], [⟨1, 1, ⟨2026, 1, 10⟩, 1200⟩], [], []⟩

/-- C5 counterexample: for the February 2026 withdrawal month the code
resolves the period to 2025-12-16 … 2026-01-15 (withdraw 2026-02-27), not to
the claimed 2026-01-16 … 2026-02-15. -/
theorem C5_withdraw_period_counterexample :
    computePeriodForWithdrawMonth [] exampleCardC5 2026 2 =
      (⟨2025, 12, 16⟩, ⟨2026, 1, 15⟩, ⟨2026, 2, 27⟩) ∧
    (computePeriodForWithdrawMonth [] exampleCardC5 2026 2).1 ≠ (⟨2026, 1, 16⟩ : Date) ∧
    (computePeriodForWithdrawMonth [] exampleCardC5 2026 2).2.1 ≠ (⟨2026, 2, 15⟩ : Date) := by
  decide

/-- C5 amended: the February 2026 withdrawal month resolves to
periodStart 2025-12-16, periodEnd 2026-01-15, withdrawDate 2026-02-27 (a
business day, so unshifted); the period 2026-01-16 … 2026-02-15 named by the
claim belongs to the March 2026 withdrawal month; and with a single 1200
transaction dated inside the resolved February period, the February amount
due is 1200, materialized as a single −1200 settlement event on the payment
account on 2026-02-27.  (Both period functions agree,
`computePeriod_eq_cardPeriod`.) -/
theorem C5_withdraw_period_amended :
    computePeriodForWithdrawMonth [] exampleCardC5 2026 3 =
      (⟨2026, 1, 16⟩, ⟨2026, 2, 15⟩, ⟨2026, 3, 27⟩) ∧
    computePeriodForWithdrawMonth [] exampleCardC5 2026 2 =
      (⟨2025, 12, 16⟩, ⟨2026, 1, 15⟩, ⟨2026, 2, 27⟩) ∧
    cardWithdrawTotal [] exampleTablesC5 1 exampleCardC5 2026 2 ⟨2026, 2, 1⟩ = 1200 ∧
    buildCardWithdrawEvents [] exampleTablesC5 1 2026 2 ⟨2026, 2, 1⟩ =
      [⟨0, 1, ⟨2026, 2, 27⟩, -1200, 1, none,
        some ("カード引落: C (2025-12-16〜2026-01-15)"), "card", "expected", none⟩] := by
  decide

/-! ## C3: example subscription scenario (billing day 31, start 2026-01-20) -/

def exampleSubC3 : Subscription :=
  ⟨1, "S", 3000, 31, "monthly", 1, 1, 1, "bank", some 1, none, some ⟨2026, 1, 20⟩, none⟩

/-- C3 counterexample: materializing February 2026 for the example
subscription produces NO event: the clamped February date 2026-02-28 is a
Saturday, the expense rule shifts it to 2026-03-02, and that adjusted date
falls outside the February window, so the occurrence is dropped — the claim's
"exactly one event" fails. -/
theorem C3_subscription_example_counterexample :
    buildMonthSubscriptionEvents [] [exampleSubC3] 1 ⟨2026, 2, 1⟩ = [] := by
  decide

/-- C3 amended: January 2026 produces no event (the clamped January date
2026-01-31, a Saturday, shifts to 2026-02-02, outside the January window —
not because it precedes the effective start), and February 2026 also produces
no event (2026-02-28, a Saturday, shifts to 2026-03-02, outside February);
the first materialized occurrence is March's: exactly one event on
2026-03-31 with amount −3000. -/
theorem C3_subscription_example_amended :
    buildMonthSubscriptionEvents [] [exampleSubC3] 1 ⟨2026, 1, 1⟩ = [] ∧
    buildMonthSubscriptionEvents [] [exampleSubC3] 1 ⟨2026, 2, 1⟩ = [] ∧
    resolveDayInMonth 2026 2 31 = ⟨2026, 2, 28⟩ ∧
    applyBusinessDayRule [] ⟨2026, 2, 28⟩ "expense" = ⟨2026, 3, 2⟩ ∧
    subscriptionOccurrencesInRange [] exampleSubC3.recurFields ⟨2026, 2, 1⟩ ⟨2026, 2, 28⟩
      = [] ∧
    buildMonthSubscriptionEvents [] [exampleSubC3] 1 ⟨2026, 3, 1⟩ =
      [⟨0, 1, ⟨2026, 3, 31⟩, -3000, 1, none, some ("サブスク: S"), "plan", "expected", none⟩] := by
  decide

/-! ## C8: sign of the card settlement -/

def exampleCardC8 : Card := ⟨1, "C", 15, 27, 1, none, none⟩

def exampleTablesC8 : Tables :=
  ⟨[], [], [], [], [], [exampleCardC8], [⟨1, 1, ⟨2026, 1, 10⟩, -500⟩], [], []⟩

/-- C8 counterexample: with a single refund row of −500 inside the period the
aggregated withdrawal total is −500, i.e. NOT a non-negative magnitude. -/
theorem C8_settlement_sign_counterexample :
    cardWithdrawTotal [] exampleTablesC8 1 exampleCardC8 2026 2 ⟨2026, 2, 1⟩ = -500 ∧
    ¬ (0 ≤ cardWithdrawTotal [] exampleTablesC8 1 exampleCardC8 2026 2 ⟨2026, 2, 1⟩) := by
  decide

/-- C8 amended: the aggregated total may be negative when refund rows exceed
charges; the materialized settlement event always carries minus the absolute
value of the total — hence a non-positive amount — on the card's payment
account, tagged as a card settlement. -/
theorem C8_settlement_sign_amended (hol : List Date) (t : Tables) (userId : Nat)
    (wy : Int) (wm : Nat) (today : Date) :
    (∀ e ∈ buildCardWithdrawEvents hol t userId wy wm today, e.amountYen ≤ 0) ∧
    (∀ card ∈ t.cards, ∃ e ∈ buildCardWithdrawEvents hol t userId wy wm today,
      e.accountId = card.paymentAccountId ∧
      e.amountYen = -|cardWithdrawTotal hol t userId card wy wm today| ∧
      e.source = "card") := by
  constructor
  · intro e he
    simp only [buildCardWithdrawEvents, List.mem_map] at he
    obtain ⟨card, _, rfl⟩ := he
    dsimp only
    exact neg_nonpos.mpr (abs_nonneg _)
  · intro card hc
    refine ⟨_, List.mem_map_of_mem _ hc, ?_⟩
    dsimp only
    exact ⟨rfl, rfl, rfl⟩

/-- Witness for C8 amended at the refund-only example: the single settlement
event carries −|−500| = −500 on account 1. -/
theorem C8_settlement_sign_amended_witness :
    ∃ e ∈ buildCardWithdrawEvents [] exampleTablesC8 1 2026 2 ⟨2026, 2, 1⟩,
      e.accountId = exampleCardC8.paymentAccountId ∧
      e.amountYen = -|cardWithdrawTotal [] exampleTablesC8 1 exampleCardC8 2026 2 ⟨2026, 2, 1⟩| ∧
      e.source = "card" :=
  (C8_settlement_sign_amended [] exampleTablesC8 1 2026 2 ⟨2026, 2, 1⟩).2 exampleCardC8
    (by decide)

/-! ## Membership and range lemmas for occurrence lists -/

theorem mem_insertDateSorted {x d : Date} : ∀ {l : List Date},
    x ∈ insertDateSorted d l ↔ x = d ∨ x ∈ l := by
  intro l
  induction l with
  | nil => simp [insertDateSorted]
  | cons a t ih =>
    simp only [insertDateSorted]
    split
    · simp [List.mem_cons]
    · simp only [List.mem_cons, ih]
      tauto

theorem mem_sortDates {x : Date} : ∀ {l : List Date}, x ∈ sortDates l ↔ x ∈ l := by
  intro l
  induction l with
  | nil => simp [sortDates]
  | cons a t ih =>
    simp only [sortDates, List.foldr_cons] at *
    rw [mem_insertDateSorted]
    simp [ih, List.mem_cons]

theorem mem_dedupSortedDates {x : Date} : ∀ {l : List Date},
    x ∈ dedupSortedDates l ↔ x ∈ l := by
  intro l
  induction l using dedupSortedDates.induct with
  | case1 => simp [dedupSortedDates]
  | case2 a => simp [dedupSortedDates]
  | case3 b t ih =>
    have hstep : dedupSortedDates (b :: b :: t) = dedupSortedDates (b :: t) := by
      simp [dedupSortedDates]
    rw [hstep, ih]
    simp only [List.mem_cons]
    tauto
  | case4 a b t hab ih =>
    simp only [dedupSortedDates, if_neg hab]
    simp only [List.mem_cons] at *
    rw [ih]

theorem mem_sortedUnique {x : Date} {l : List Date} : x ∈ sortedUnique l ↔ x ∈ l := by
  rw [sortedUnique, mem_dedupSortedDates, mem_sortDates]

theorem mem_range_here_aux {P : Prop} [Decidable P] {adj d start stop : Date}
    (h : d ∈ (if P then (if Date.le start adj ∧ Date.le adj stop then [adj] else [])
      else ([] : List Date))) :
    Date.le start d ∧ Date.le d stop := by
  split at h
  · split at h
    · rename_i hg
      rcases List.mem_singleton.mp h with rfl
      exact hg
    · simp at h
  · simp at h

theorem mem_range_here_aux2 {P Q : Prop} [Decidable P] [Decidable Q]
    {adj d start stop : Date}
    (h : d ∈ (if P then (if Q then ([] : List Date)
      else if Date.le start adj ∧ Date.le adj stop then [adj] else []) else [])) :
    Date.le start d ∧ Date.le d stop := by
  split at h
  · split at h
    · simp at h
    · split at h
      · rename_i hg
        rcases List.mem_singleton.mp h with rfl
        exact hg
      · simp at h
  · simp at h

theorem occMonthLoop_mem_range (hol : List Date) (freq : String)
    (day im bm : Nat) (start stop : Date) :
    ∀ (n : Nat) (cur d : Date), d ∈ occMonthLoop hol freq day im bm start stop n cur →
      Date.le start d ∧ Date.le d stop := by
  intro n
  induction n with
  | zero => intro cur d h; simp [occMonthLoop] at h
  | succ k ih =>
    intro cur d h
    simp only [occMonthLoop] at h
    split at h
    · rw [List.mem_append] at h
      rcases h with h | h
      · exact mem_range_here_aux h
      · exact ih _ d h
    · simp at h

theorem planOccMonthLoop_mem_range (hol : List Date) (today : Date) (p : Plan)
    (start stop : Date) :
    ∀ (n : Nat) (cur d : Date), d ∈ planOccMonthLoop hol today p start stop n cur →
      Date.le start d ∧ Date.le d stop := by
  intro n
  induction n with
  | zero => intro cur d h; simp [planOccMonthLoop] at h
  | succ k ih =>
    intro cur d h
    simp only [planOccMonthLoop] at h
    split at h
    · rw [List.mem_append] at h
      rcases h with h | h
      · exact mem_range_here_aux2 h
      · exact ih _ d h
    · simp at h

theorem planOccursInRange_mem_range (hol : List Date) (today : Date) (p : Plan)
    (start stop d : Date) (h : d ∈ planOccursInRange hol today p start stop) :
    Date.le start d ∧ Date.le d stop :=
  planOccMonthLoop_mem_range hol today p start stop _ _ d h

theorem subscriptionOccurrencesInRange_mem_range (hol : List Date) (f : RecurFields)
    (start stop d : Date) (h : d ∈ subscriptionOccurrencesInRange hol f start stop) :
    Date.le start d ∧ Date.le d stop := by
  simp only [subscriptionOccurrencesInRange] at h
  split at h
  · rw [mem_sortedUnique, List.mem_filter] at h
    have := h.2
    simp only [Bool.and_eq_true, decide_eq_true_eq] at this
    exact this
  · rw [mem_sortedUnique] at h
    exact occMonthLoop_mem_range hol f.freq _ _ _ start stop _ _ d h

/-! ## C7: no billing activity outside the card's validity window -/

theorem clip_none_not_within {start stop d : Date} {sd ed : Option Date}
    (hd1 : Date.le start d) (hd2 : Date.le d stop)
    (hclip : clipRangeToEffective start stop sd ed = none) :
    isWithinEffective d sd ed = false := by
  by_contra hw
  rw [Bool.not_eq_false] at hw
  have hss : Date.le start stop := Date.le_trans hd1 hd2
  rcases sd with _ | s <;> rcases ed with _ | e <;>
      simp only [isWithinEffective, Bool.and_eq_true, decide_eq_true_eq] at hw <;>
      simp only [clipRangeToEffective] at hclip
  · split at hclip
    · rename_i hlt
      exact absurd hlt (Date.not_lt.mpr hss)
    · exact Option.noConfusion hclip
  · by_cases h : Date.lt e stop
    · rw [if_pos h] at hclip
      split at hclip
      · rename_i hlt
        exact Date.lt_irrefl e (Date.lt_of_lt_of_le hlt (Date.le_trans hd1 hw.2))
      · exact Option.noConfusion hclip
    · rw [if_neg h] at hclip
      split at hclip
      · rename_i hlt
        exact absurd hlt (Date.not_lt.mpr hss)
      · exact Option.noConfusion hclip
  · by_cases h : Date.lt start s
    · rw [if_pos h] at hclip
      split at hclip
      · rename_i hlt
        exact Date.lt_irrefl s (Date.lt_of_le_of_lt (Date.le_trans hw.1 hd2) hlt)
      · exact Option.noConfusion hclip
    · rw [if_neg h] at hclip
      split at hclip
      · rename_i hlt
        exact absurd hlt (Date.not_lt.mpr hss)
      · exact Option.noConfusion hclip
  · by_cases h1 : Date.lt start s <;> by_cases h2 : Date.lt e stop
    · rw [if_pos h1, if_pos h2] at hclip
      split at hclip
      · rename_i hlt
        exact Date.lt_irrefl e (Date.lt_of_lt_of_le hlt (Date.le_trans hw.1 hw.2))
      · exact Option.noConfusion hclip
    · rw [if_pos h1, if_neg h2] at hclip
      split at hclip
      · rename_i hlt
        exact Date.lt_irrefl s (Date.lt_of_le_of_lt (Date.le_trans hw.1 hd2) hlt)
      · exact Option.noConfusion hclip
    · rw [if_neg h1, if_pos h2] at hclip
      split at hclip
      · rename_i hlt
        exact Date.lt_irrefl e (Date.lt_of_lt_of_le hlt (Date.le_trans hd1 hw.2))
      · exact Option.noConfusion hclip
    · rw [if_neg h1, if_neg h2] at hclip
      split at hclip
      · rename_i hlt
        exact absurd hlt (Date.not_lt.mpr hss)
      · exact Option.noConfusion hclip

/-- C7: when the card's validity window does not overlap the billing period,
no raw transaction and no routed plan/subscription/variable-payment
occurrence contributes — only the month-keyed revolving and installment dues
remain in the withdrawal total. -/
theorem C7_card_window_no_overlap (hol : List Date) (t : Tables) (userId : Nat)
    (card : Card) (wy : Int) (wm : Nat) (today : Date) (ps pe wd : Date)
    (hper : cardPeriodForWithdrawMonth hol card wy wm = (ps, pe, wd))
    (hclip : clipRangeToEffective ps pe card.effectiveStartDate card.effectiveEndDate = none) :
    cardTxnTotal t.cardTransactions card ps pe = 0 ∧
    cardPlanTotal hol today t.plans userId card ps pe = 0 ∧
    cardSubTotal hol t.subscriptions card ps pe = 0 ∧
    cardVarTotal hol t.variablePayments t.confirmations card ps pe = 0 ∧
    cardWithdrawTotal hol t userId card wy wm today =
      cardRevolvingTotal t.cardRevolvings card ⟨wy, wm, 1⟩ +
        cardInstallmentTotal t.cardInstallments card ⟨wy, wm, 1⟩ := by
  have hwithin : ∀ d : Date, Date.le ps d → Date.le d pe →
      isWithinEffective d card.effectiveStartDate card.effectiveEndDate = false :=
    fun d h1 h2 => clip_none_not_within h1 h2 hclip
  have htxn : cardTxnTotal t.cardTransactions card ps pe = 0 := by
    simp only [cardTxnTotal, hclip]
  have hplan : cardPlanTotal hol today t.plans userId card ps pe = 0 := by
    simp only [cardPlanTotal]
    apply List.sum_eq_zero
    intro x hx
    simp only [List.mem_map] at hx
    obtain ⟨p, hp, rfl⟩ := hx
    split
    · rfl
    · have hnil : (planOccursInRange hol today p ps pe).filter
          (fun d => isWithinEffective d card.effectiveStartDate card.effectiveEndDate) = [] := by
        rw [List.filter_eq_nil_iff]
        intro d hd
        have hr := planOccursInRange_mem_range hol today p ps pe d hd
        simp [hwithin d hr.1 hr.2]
      rw [hnil]
      simp
  have hsub : cardSubTotal hol t.subscriptions card ps pe = 0 := by
    simp only [cardSubTotal]
    apply List.sum_eq_zero
    intro x hx
    simp only [List.mem_map] at hx
    obtain ⟨s, hs, rfl⟩ := hx
    split
    · rfl
    · have hnil : (subscriptionOccurrencesInRange hol s.recurFields ps pe).filter
          (fun d => isWithinEffective d card.effectiveStartDate card.effectiveEndDate &&
            isWithinEffective d s.effectiveStartDate s.effectiveEndDate) = [] := by
        rw [List.filter_eq_nil_iff]
        intro d hd
        have hr := subscriptionOccurrencesInRange_mem_range hol s.recurFields ps pe d hd
        simp [hwithin d hr.1 hr.2]
      rw [hnil]
      simp
  have hvar : cardVarTotal hol t.variablePayments t.confirmations card ps pe = 0 := by
    simp only [cardVarTotal]
    apply List.sum_eq_zero
    intro x hx
    simp only [List.mem_map] at hx
    obtain ⟨item, hi, rfl⟩ := hx
    have hnil : (subscriptionOccurrencesInRange hol item.recurFields ps pe).filter
        (fun d => isWithinEffective d card.effectiveStartDate card.effectiveEndDate &&
          isWithinEffective d item.effectiveStartDate item.effectiveEndDate) = [] := by
      rw [List.filter_eq_nil_iff]
      intro d hd
      have hr := subscriptionOccurrencesInRange_mem_range hol item.recurFields ps pe d hd
      simp [hwithin d hr.1 hr.2]
    rw [hnil]
    simp
  refine ⟨htxn, hplan, hsub, hvar, ?_⟩
  simp only [cardWithdrawTotal, hper] at *
  rw [htxn, hplan, hsub, hvar]
  ring

/-- Witness for C7: a card whose validity ended 2025-01-01 has zero billing
activity for the February 2026 period even with a transaction dated inside
it; only the revolving due remains. -/
theorem C7_card_window_no_overlap_witness :
    cardTxnTotal [⟨1, 1, ⟨2026, 1, 10⟩, 700⟩] ⟨1, "C", 15, 27, 1, some ⟨2020, 1, 1⟩,
        some ⟨2025, 1, 1⟩⟩ ⟨2025, 12, 16⟩ ⟨2026, 1, 15⟩ = 0 ∧
    cardPlanTotal [] ⟨2026, 2, 1⟩ [] 1 ⟨1, "C", 15, 27, 1, some ⟨2020, 1, 1⟩,
        some ⟨2025, 1, 1⟩⟩ ⟨2025, 12, 16⟩ ⟨2026, 1, 15⟩ = 0 ∧
    cardSubTotal [] [] ⟨1, "C", 15, 27, 1, some ⟨2020, 1, 1⟩, some ⟨2025, 1, 1⟩⟩
        ⟨2025, 12, 16⟩ ⟨2026, 1, 15⟩ = 0 ∧
    cardVarTotal [] [] [] ⟨1, "C", 15, 27, 1, some ⟨2020, 1, 1⟩, some ⟨2025, 1, 1⟩⟩
        ⟨2025, 12, 16⟩ ⟨2026, 1, 15⟩ = 0 ∧
    cardWithdrawTotal []
        ⟨[], [], [], [], [], [⟨1, "C", 15, 27, 1, some ⟨2020, 1, 1⟩, some ⟨2025, 1, 1⟩⟩],
          [⟨1, 1, ⟨2026, 1, 10⟩, 700⟩], [⟨1, ⟨2026, 1, 1⟩, 2500, 1000⟩], []⟩ 1
        ⟨1, "C", 15, 27, 1, some ⟨2020, 1, 1⟩, some ⟨2025, 1, 1⟩⟩ 2026 2 ⟨2026, 2, 1⟩ =
      cardRevolvingTotal [⟨1, ⟨2026, 1, 1⟩, 2500, 1000⟩]
          ⟨1, "C", 15, 27, 1, some ⟨2020, 1, 1⟩, some ⟨2025, 1, 1⟩⟩ ⟨2026, 2, 1⟩ +
        cardInstallmentTotal [] ⟨1, "C", 15, 27, 1, some ⟨2020, 1, 1⟩, some ⟨2025, 1, 1⟩⟩
          ⟨2026, 2, 1⟩ :=
  C7_card_window_no_overlap []
    ⟨[], [], [], [], [], [⟨1, "C", 15, 27, 1, some ⟨2020, 1, 1⟩, some ⟨2025, 1, 1⟩⟩],
      [⟨1, 1, ⟨2026, 1, 10⟩, 700⟩], [⟨1, ⟨2026, 1, 1⟩, 2500, 1000⟩], []⟩ 1
    ⟨1, "C", 15, 27, 1, some ⟨2020, 1, 1⟩, some ⟨2025, 1, 1⟩⟩ 2026 2 ⟨2026, 2, 1⟩
    ⟨2025, 12, 16⟩ ⟨2026, 1, 15⟩ ⟨2026, 2, 27⟩ (by decide) (by decide)

/-! ## C10: variable-recurring confirmation semantics -/

theorem foldl_conf_agree (l : List VariableRecurringConfirmation)
    (g : Nat → Date → Option Int) (pid : Nat) (d : Date)
    (h : ∀ c ∈ l, ¬ (pid = c.variablePaymentId ∧ d = c.occurrenceDate)) :
    (l.foldl (fun f c => fun pid d =>
        if pid = c.variablePaymentId ∧ d = c.occurrenceDate then some c.confirmedAmountYen
        else f pid d) g) pid d = g pid d := by
  induction l generalizing g with
  | nil => rfl
  | cons c t ih =>
    simp only [List.foldl_cons]
    rw [ih _ (fun x hx => h x (List.mem_cons_of_mem c hx))]
    exact if_neg (h c (List.mem_cons_self c t))

/-- A confirmation key with no row in the store resolves to `none`. -/
theorem confLookup_eq_none (rows : List VariableRecurringConfirmation) (ids : List Nat)
    (lo hi : Date) (pid : Nat) (d : Date)
    (h : ∀ c ∈ rows, ¬ (pid = c.variablePaymentId ∧ d = c.occurrenceDate)) :
    confLookup rows ids lo hi pid d = none := by
  simp only [confLookup]
  rw [foldl_conf_agree]
  intro c hc
  exact h c (List.mem_filter.mp hc).1

/-- A row stored last for the exact (definition id, occurrence date) key,
inside the queried window and id set, is what the lookup returns. -/
theorem confLookup_append (rows : List VariableRecurringConfirmation) (ids : List Nat)
    (lo hi : Date) (c : VariableRecurringConfirmation) (pid : Nat) (d : Date)
    (hpid : pid = c.variablePaymentId) (hd : d = c.occurrenceDate)
    (hin : c.variablePaymentId ∈ ids)
    (hlo : Date.le lo c.occurrenceDate) (hhi : Date.le c.occurrenceDate hi) :
    confLookup (rows ++ [c]) ids lo hi pid d = some c.confirmedAmountYen := by
  simp only [confLookup, List.filter_append, List.filter_cons, List.filter_nil]
  rw [if_pos (by simp [hin, hlo, hhi])]
  rw [List.foldl_append]
  simp only [List.foldl_cons, List.foldl_nil]
  exact if_pos ⟨hpid, hd⟩

/-- Filtering a per-occurrence materialization to one date only depends on
the per-occurrence function's value at that date, provided every produced
event is dated at its occurrence. -/
theorem filterMap_filter_date (F G : Date → Option CashflowEvent) (dd : Date)
    (hF : ∀ x e, F x = some e → e.date = x) (hG : ∀ x e, G x = some e → e.date = x)
    (hagree : F dd = G dd) :
    ∀ l : List Date, (l.filterMap F).filter (fun e => e.date == dd) =
      (l.filterMap G).filter (fun e => e.date == dd) := by
  intro l
  induction l with
  | nil => rfl
  | cons x t ih =>
    rw [List.filterMap_cons, List.filterMap_cons]
    by_cases hxd : x = dd
    · subst hxd
      rw [hagree]
      cases hg : G x with
      | none => simpa using ih
      | some b =>
        simp only [List.filter_cons]
        rw [ih]
    · cases hf : F x with
      | none =>
        cases hg : G x with
        | none => simpa using ih
        | some b =>
          have hb : b.date = x := hG x b hg
          simp only [List.filter_cons]
          rw [if_neg (by simp [hb, hxd])]
          simpa using ih
      | some b =>
        have hb : b.date = x := hF x b hf
        cases hg : G x with
        | none =>
          simp only [List.filter_cons]
          rw [if_neg (by simp [hb, hxd])]
          simpa using ih
        | some b2 =>
          have hb2 : b2.date = x := hG x b2 hg
          simp only [List.filter_cons]
          rw [if_neg (by simp [hb, hxd]), if_neg (by simp [hb2, hxd])]
          exact ih

/-- C10: for a variable recurring payment and a resolved occurrence date
inside the validity window, a confirmation stored for that exact
(definition id, date) key makes the materialized event carry minus the
absolute confirmed amount; with no confirmation the event carries minus the
absolute estimate; a zero resolved magnitude materializes no event for that
occurrence; any event at that date carries exactly minus the resolved
magnitude; and the events of every other date are unaffected by the
confirmation value at this key. -/
theorem C10_variable_recurring_confirmation (hol : List Date)
    (lookup : Nat → Date → Option Int) (userId : Nat) (mf ml : Date)
    (item : VariableRecurringPayment) (d : Date)
    (hd : d ∈ subscriptionOccurrencesInRange hol item.recurFields mf ml)
    (hw : isWithinEffective d item.effectiveStartDate item.effectiveEndDate = true) :
    (∀ c : Int, lookup item.id d = some c → 0 < |c| →
      (⟨0, userId, d, -|c|, item.accountId.getD 0, none, some ("変動定期: " ++ item.name),
        "plan", "expected", none⟩ : CashflowEvent) ∈
          variableEventsForItem hol lookup userId mf ml item) ∧
    (∀ c : Int, lookup item.id d = some c → |c| = 0 →
      ∀ e ∈ variableEventsForItem hol lookup userId mf ml item, e.date ≠ d) ∧
    (lookup item.id d = none → 0 < |item.estimatedAmountYen| →
      (⟨0, userId, d, -|item.estimatedAmountYen|, item.accountId.getD 0, none,
        some ("変動定期: " ++ item.name), "plan", "expected", none⟩ : CashflowEvent) ∈
          variableEventsForItem hol lookup userId mf ml item) ∧
    (lookup item.id d = none → item.estimatedAmountYen = 0 →
      ∀ e ∈ variableEventsForItem hol lookup userId mf ml item, e.date ≠ d) ∧
    (∀ e ∈ variableEventsForItem hol lookup userId mf ml item, e.date = d →
      e.amountYen = -(occurrenceAmountYen item.estimatedAmountYen lookup item.id d)) ∧
    (∀ lookup2 : Nat → Date → Option Int, lookup2 item.id d = lookup item.id d →
      (variableEventsForItem hol lookup2 userId mf ml item).filter (fun e => e.date == d) =
        (variableEventsForItem hol lookup userId mf ml item).filter (fun e => e.date == d)) := by
  have hmk : ∀ (lk : Nat → Date → Option Int) (x : Date) (e : CashflowEvent),
      (if isWithinEffective x item.effectiveStartDate item.effectiveEndDate = true then
        (if occurrenceAmountYen item.estimatedAmountYen lk item.id x ≤ 0 then none
         else some (⟨0, userId, x, -|occurrenceAmountYen item.estimatedAmountYen lk item.id x|,
           item.accountId.getD 0, none, some ("変動定期: " ++ item.name), "plan", "expected",
           none⟩ : CashflowEvent))
       else none) = some e → e.date = x := by
    intro lk x e h
    split at h
    · split at h
      · exact Option.noConfusion h
      · cases h
        rfl
    · exact Option.noConfusion h
  refine ⟨?_, ?_, ?_, ?_, ?_, ?_⟩
  · intro c hc hpos
    refine List.mem_filterMap.mpr ⟨d, hd, ?_⟩
    rw [if_pos hw]
    simp only [occurrenceAmountYen, hc]
    rw [if_neg (by omega : ¬ |c| ≤ 0)]
    rw [abs_abs]
  · intro c hc hzero e he hed
    obtain ⟨x, hx, hfx⟩ := List.mem_filterMap.mp he
    have hex : e.date = x := hmk lookup x e hfx
    by_cases hxd : x = d
    · subst hxd
      rw [if_pos hw] at hfx
      simp only [occurrenceAmountYen, hc] at hfx
      rw [if_pos (by omega : |c| ≤ 0)] at hfx
      exact Option.noConfusion hfx
    · exact hxd (hex ▸ hed)
  · intro hc hpos
    refine List.mem_filterMap.mpr ⟨d, hd, ?_⟩
    rw [if_pos hw]
    simp only [occurrenceAmountYen, hc]
    rw [if_neg (by omega : ¬ |item.estimatedAmountYen| ≤ 0)]
    rw [abs_abs]
  · intro hc hzero e he hed
    obtain ⟨x, hx, hfx⟩ := List.mem_filterMap.mp he
    have hex : e.date = x := hmk lookup x e hfx
    by_cases hxd : x = d
    · subst hxd
      rw [if_pos hw] at hfx
      simp only [occurrenceAmountYen, hc, hzero] at hfx
      rw [if_pos (by simp : |(0 : Int)| ≤ 0)] at hfx
      exact Option.noConfusion hfx
    · exact hxd (hex ▸ hed)
  · intro e he hed
    obtain ⟨x, hx, hfx⟩ := List.mem_filterMap.mp he
    have hex : e.date = x := hmk lookup x e hfx
    have hxd : x = d := by rw [← hex, hed]
    subst hxd
    rw [if_pos hw] at hfx
    simp only [occurrenceAmountYen] at hfx ⊢
    cases hcase : lookup item.id x with
    | some c =>
      simp only [hcase] at hfx ⊢
      split at hfx
      · exact Option.noConfusion hfx
      · cases hfx
        simp [abs_abs]
    | none =>
      simp only [hcase] at hfx ⊢
      split at hfx
      · exact Option.noConfusion hfx
      · cases hfx
        simp [abs_abs]
  · intro lookup2 hagree
    simp only [variableEventsForItem]
    apply filterMap_filter_date _ _ d (hmk lookup2) (hmk lookup)
    have hocc : occurrenceAmountYen item.estimatedAmountYen lookup2 item.id d =
        occurrenceAmountYen item.estimatedAmountYen lookup item.id d := by
      simp only [occurrenceAmountYen, hagree]
    rw [hocc]

def exampleVarC10 : VariableRecurringPayment :=
  ⟨1, "G", 6000, 10, "monthly", 1, 1, 1, "bank", some 1, none, some ⟨2026, 1, 1⟩, none⟩

def exampleConfRowsC10 : List VariableRecurringConfirmation := [⟨1, ⟨2026, 2, 10⟩, 5800⟩]

/-- Witness for C10: with a confirmation of 5800 stored for
(definition 1, 2026-02-10), the February materialization of the 6000-yen
estimate carries −5800 on that date. -/
theorem C10_variable_recurring_confirmation_witness :
    (⟨0, 1, ⟨2026, 2, 10⟩, -|(5800 : Int)|, (exampleVarC10.accountId).getD 0, none,
      some ("変動定期: " ++ exampleVarC10.name), "plan", "expected", none⟩ : CashflowEvent) ∈
      variableEventsForItem []
        (confLookup exampleConfRowsC10 [1] ⟨2026, 2, 1⟩ ⟨2026, 2, 28⟩) 1
        ⟨2026, 2, 1⟩ ⟨2026, 2, 28⟩ exampleVarC10 :=
  (C10_variable_recurring_confirmation []
      (confLookup exampleConfRowsC10 [1] ⟨2026, 2, 1⟩ ⟨2026, 2, 28⟩) 1
      ⟨2026, 2, 1⟩ ⟨2026, 2, 28⟩ exampleVarC10 ⟨2026, 2, 10⟩ (by decide) (by decide)).1
    5800 (by decide) (by decide)

/-! ## C1: rebuild idempotence and preservation of authored events -/

theorem buildMonthEvents_fields (hol : List Date) (plans : List Plan) (userId : Nat)
    (monthFirstD today : Date) :
    ∀ e ∈ buildMonthEvents hol plans userId monthFirstD today,
      e.userId = userId ∧ e.source = "plan" := by
  intro e he
  simp only [buildMonthEvents, List.mem_filterMap] at he
  obtain ⟨p, hp, hfp⟩ := he
  repeat
    first
    | exact Option.noConfusion hfp
    | (cases hfp; exact ⟨rfl, rfl⟩)
    | split at hfp

theorem buildMonthSubscriptionEvents_fields (hol : List Date) (subs : List Subscription)
    (userId : Nat) (monthFirstD : Date) :
    ∀ e ∈ buildMonthSubscriptionEvents hol subs userId monthFirstD,
      e.userId = userId ∧ e.source = "plan" := by
  intro e he
  simp only [buildMonthSubscriptionEvents, List.mem_flatMap] at he
  obtain ⟨s, hs, he2⟩ := he
  split at he2
  · simp at he2
  · split at he2
    · simp at he2
    · split at he2
      · simp at he2
      · split at he2
        · simp at he2
        · rw [List.mem_map] at he2
          obtain ⟨d0, _, rfl⟩ := he2
          exact ⟨rfl, rfl⟩

theorem variableEventsForItem_fields (hol : List Date) (lookup : Nat → Date → Option Int)
    (userId : Nat) (mf ml : Date) (item : VariableRecurringPayment) :
    ∀ e ∈ variableEventsForItem hol lookup userId mf ml item,
      e.userId = userId ∧ e.source = "plan" := by
  intro e he
  simp only [variableEventsForItem, List.mem_filterMap] at he
  obtain ⟨d0, _, hfd⟩ := he
  repeat
    first
    | exact Option.noConfusion hfd
    | (cases hfd; exact ⟨rfl, rfl⟩)
    | split at hfd

theorem buildMonthVariableRecurringEvents_fields (hol : List Date)
    (varsAll : List VariableRecurringPayment) (confRows : List VariableRecurringConfirmation)
    (userId : Nat) (monthFirstD : Date) :
    ∀ e ∈ buildMonthVariableRecurringEvents hol varsAll confRows userId monthFirstD,
      e.userId = userId ∧ e.source = "plan" := by
  intro e he
  simp only [buildMonthVariableRecurringEvents, List.mem_flatMap] at he
  obtain ⟨item, _, he2⟩ := he
  exact variableEventsForItem_fields hol _ userId _ _ item e he2

theorem buildCardWithdrawEvents_fields (hol : List Date) (t : Tables) (userId : Nat)
    (wy : Int) (wm : Nat) (today : Date) :
    ∀ e ∈ buildCardWithdrawEvents hol t userId wy wm today,
      e.userId = userId ∧ e.source = "card" := by
  intro e he
  simp only [buildCardWithdrawEvents, List.mem_map] at he
  obtain ⟨card, _, rfl⟩ := he
  exact ⟨rfl, rfl⟩

theorem rebuildNewEvents_fields (hol : List Date) (t : Tables) (userId : Nat) (today : Date) :
    ∀ e ∈ rebuildNewEvents hol t userId today,
      e.userId = userId ∧ (e.source = "plan" ∨ e.source = "card") := by
  intro e he
  simp only [rebuildNewEvents, List.mem_append] at he
  rcases he with ((((((((((h | h) | h) | h) | h) | h) | h) | h) | h) | h) | h) | h
  all_goals
    first
    | (have hf := buildMonthEvents_fields _ _ _ _ _ e h; exact ⟨hf.1, Or.inl hf.2⟩)
    | (have hf := buildMonthSubscriptionEvents_fields _ _ _ _ e h; exact ⟨hf.1, Or.inl hf.2⟩)
    | (have hf := buildMonthVariableRecurringEvents_fields _ _ _ _ _ e h
       exact ⟨hf.1, Or.inl hf.2⟩)
    | (have hf := buildCardWithdrawEvents_fields _ _ _ _ _ _ e h; exact ⟨hf.1, Or.inr hf.2⟩)

/-- The derived part of the ledger: the user's plan- and card-sourced events. -/
def derivedEvents (db : DB) (userId : Nat) : List CashflowEvent :=
  db.events.filter (fun e => e.userId == userId && (e.source == "plan" || e.source == "card"))

/-- The authored part of the ledger: one-off and transfer events. -/
def authoredEvents (db : DB) : List CashflowEvent :=
  db.events.filter (fun e => e.source == "oneoff" || e.source == "transfer")

theorem filter_not_filter {α : Type} (p : α → Bool) (l : List α) :
    (l.filter (fun e => !(p e))).filter p = [] := by
  induction l with
  | nil => rfl
  | cons a t ih =>
    simp only [List.filter_cons]
    cases hp : p a
    · simp [hp, ih]
    · simp [hp, ih]

theorem filter_not_filter_keep {α : Type} (p q : α → Bool)
    (h : ∀ e, q e = true → p e = false) (l : List α) :
    (l.filter (fun e => !(p e))).filter q = l.filter q := by
  induction l with
  | nil => rfl
  | cons a t ih =>
    simp only [List.filter_cons]
    cases hq : q a
    · cases hp : p a
      · simpa [hp, hq] using ih
      · simpa [hp, hq] using ih
    · have hp : p a = false := h a hq
      simpa [hp, hq] using ih

theorem rebuild_events_decomposition (hol : List Date) (db : DB) (userId : Nat)
    (today : Date) :
    (rebuildEvents hol db userId today).events =
      db.events.filter (fun e =>
        !(e.userId == userId && (e.source == "plan" || e.source == "card")))
        ++ rebuildNewEvents hol db.tables userId today := rfl

theorem rebuild_tables_unchanged (hol : List Date) (db : DB) (userId : Nat) (today : Date) :
    (rebuildEvents hol db userId today).tables = db.tables := rfl

theorem derived_rebuild (hol : List Date) (db : DB) (userId : Nat) (today : Date) :
    derivedEvents (rebuildEvents hol db userId today) userId =
      rebuildNewEvents hol db.tables userId today := by
  rw [derivedEvents, rebuild_events_decomposition, List.filter_append, filter_not_filter,
    List.nil_append]
  rw [List.filter_eq_self]
  intro e he
  have := rebuildNewEvents_fields hol db.tables userId today e he
  rcases this with ⟨hu, hs | hs⟩ <;> simp [hu, hs]

theorem authored_rebuild (hol : List Date) (db : DB) (userId : Nat) (today : Date) :
    authoredEvents (rebuildEvents hol db userId today) = authoredEvents db := by
  rw [authoredEvents, rebuild_events_decomposition, List.filter_append]
  have h1 : (rebuildNewEvents hol db.tables userId today).filter
      (fun e => e.source == "oneoff" || e.source == "transfer") = [] := by
    rw [List.filter_eq_nil_iff]
    intro e he
    have := rebuildNewEvents_fields hol db.tables userId today e he
    rcases this with ⟨-, hs | hs⟩ <;> simp [hs]
  rw [h1, List.append_nil]
  rw [filter_not_filter_keep]
  · rfl
  · intro e hq
    simp only [Bool.or_eq_true, beq_iff_eq] at hq
    rcases hq with hq | hq <;> simp [hq]

/-- C1: rebuilding twice in a row over an unchanged database yields the very
same derived (plan/card) event list as rebuilding once, and neither call
deletes, modifies or recreates any authored (one-off / transfer) event. -/
theorem C1_rebuild_idempotent (hol : List Date) (db : DB) (userId : Nat) (today : Date) :
    derivedEvents (rebuildEvents hol (rebuildEvents hol db userId today) userId today) userId =
      derivedEvents (rebuildEvents hol db userId today) userId ∧
    authoredEvents (rebuildEvents hol db userId today) = authoredEvents db ∧
    authoredEvents (rebuildEvents hol (rebuildEvents hol db userId today) userId today) =
      authoredEvents (rebuildEvents hol db userId today) := by
  refine ⟨?_, authored_rebuild hol db userId today, authored_rebuild hol _ userId today⟩
  rw [derived_rebuild, derived_rebuild, rebuild_tables_unchanged]

/-! ## C4: effective-window zeroing in the forecast.  Order and lookup tools. -/

theorem mem_of_getLast?_eq_some {α : Type} {l : List α} {a : α}
    (h : l.getLast? = some a) : a ∈ l := by
  have hx : a ∈ l.getLast? := by rw [h]; rfl
  obtain ⟨hne, rfl⟩ := List.mem_getLast?_eq_getLast hx
  exact List.getLast_mem hne

theorem lookupAccount_self (accs : List Account)
    (hnodup : (accs.map (fun x => x.id)).Nodup) (a : Account) (ha : a ∈ accs) :
    lookupAccount accs a.id = some a := by
  have hfil : accs.filter (fun b => b.id == a.id) = [a] := by
    induction accs with
    | nil => cases ha
    | cons x t ih =>
      simp only [List.map_cons, List.nodup_cons] at hnodup
      rcases List.mem_cons.mp ha with rfl | hat
      · rw [List.filter_cons, if_pos (by simp)]
        congr 1
        rw [List.filter_eq_nil_iff]
        intro b hb
        simp only [beq_iff_eq]
        intro hbid
        exact hnodup.1 (hbid ▸ List.mem_map_of_mem (fun v => v.id) hb)
      · rw [List.filter_cons, if_neg (by
          simp only [beq_iff_eq]
          intro hxa
          exact hnodup.1 (hxa ▸ List.mem_map_of_mem (fun v => v.id) hat))]
        exact ih hnodup.2 hat
  rw [lookupAccount, hfil]
  rfl

theorem accsId_inj (accs : List Account) (hnodup : (accs.map (fun x => x.id)).Nodup)
    {a b : Account} (ha : a ∈ accs) (hb : b ∈ accs) (hid : a.id = b.id) : a = b :=
  List.inj_on_of_nodup_map hnodup ha hb hid

theorem pairwise_le_insertDateSorted (d : Date) (l : List Date)
    (h : l.Pairwise Date.le) : (insertDateSorted d l).Pairwise Date.le := by
  induction l with
  | nil => simp [insertDateSorted]
  | cons x xs ih =>
    rw [List.pairwise_cons] at h
    simp only [insertDateSorted]
    split
    · rename_i hdx
      rw [List.pairwise_cons]
      refine ⟨?_, List.pairwise_cons.mpr h⟩
      intro y hy
      rcases List.mem_cons.mp hy with rfl | hy2
      · exact hdx
      · exact Date.le_trans hdx (h.1 y hy2)
    · rename_i hdx
      rw [List.pairwise_cons]
      refine ⟨?_, ih h.2⟩
      intro y hy
      rcases mem_insertDateSorted.mp hy with rfl | hy2
      · rcases Date.le_total y x with hc | hc
        · exact absurd hc hdx
        · exact hc
      · exact h.1 y hy2

theorem pairwise_le_sortDates (l : List Date) : (sortDates l).Pairwise Date.le := by
  induction l with
  | nil => simp [sortDates]
  | cons x xs ih =>
    simp only [sortDates, List.foldr_cons] at *
    exact pairwise_le_insertDateSorted x _ ih

theorem pairwise_le_dedupSortedDates (l : List Date) (h : l.Pairwise Date.le) :
    (dedupSortedDates l).Pairwise Date.le := by
  induction l using dedupSortedDates.induct with
  | case1 => simp [dedupSortedDates]
  | case2 a => simp [dedupSortedDates]
  | case3 b t ih =>
    have hstep : dedupSortedDates (b :: b :: t) = dedupSortedDates (b :: t) := by
      simp [dedupSortedDates]
    rw [hstep]
    exact ih (List.pairwise_cons.mp h).2
  | case4 a b t hab ih =>
    rw [dedupSortedDates, if_neg hab]
    rw [List.pairwise_cons] at h ⊢
    refine ⟨?_, ih h.2⟩
    intro y hy
    exact h.1 y (mem_dedupSortedDates.mp hy)

theorem pairwise_le_sortedUnique (l : List Date) : (sortedUnique l).Pairwise Date.le :=
  pairwise_le_dedupSortedDates _ (pairwise_le_sortDates l)

theorem dropWhile_all_ge (sd : Date) : ∀ (l : List Date), l.Pairwise Date.le →
    ∀ x ∈ l.dropWhile (fun d => decide (Date.lt d sd)), Date.le sd x := by
  intro l
  induction l with
  | nil => intro _ x hx; simp at hx
  | cons a t ih =>
    intro h x hx
    rw [List.dropWhile_cons] at hx
    split at hx
    · exact ih (List.pairwise_cons.mp h).2 x hx
    · rename_i hna
      simp only [decide_eq_true_eq] at hna
      have hsa : Date.le sd a := Date.not_lt.mp hna
      rcases List.mem_cons.mp hx with rfl | hxt
      · exact hsa
      · exact Date.le_trans hsa ((List.pairwise_cons.mp h).1 x hxt)

theorem dropWhile_head_eq (sd : Date) (l : List Date) (hp : l.Pairwise Date.le)
    (hmem : sd ∈ l) :
    ∃ t, l.dropWhile (fun d => decide (Date.lt d sd)) = sd :: t := by
  have hsplit : l.takeWhile (fun d => decide (Date.lt d sd)) ++
      l.dropWhile (fun d => decide (Date.lt d sd)) = l := List.takeWhile_append_dropWhile _ l
  have hmem2 : sd ∈ l.dropWhile (fun d => decide (Date.lt d sd)) := by
    rcases List.mem_append.mp (hsplit ▸ hmem) with h | h
    · have := List.mem_takeWhile_imp h
      simp only [decide_eq_true_eq] at this
      exact absurd this (Date.lt_irrefl sd)
    · exact h
  cases hdw : l.dropWhile (fun d => decide (Date.lt d sd)) with
  | nil => rw [hdw] at hmem2; cases hmem2
  | cons h0 t =>
    have hge : Date.le sd h0 := by
      apply dropWhile_all_ge sd l hp
      rw [hdw]
      exact List.mem_cons_self h0 t
    have hpdw : (h0 :: t).Pairwise Date.le := by
      rw [← hdw]
      exact hp.sublist (List.dropWhile_sublist _)
    have hle : Date.le h0 sd := by
      rw [hdw] at hmem2
      rcases List.mem_cons.mp hmem2 with rfl | hst
      · exact Date.le_refl sd
      · exact (List.pairwise_cons.mp hpdw).1 sd hst
    obtain rfl : h0 = sd := Date.le_antisymm hle hge
    exact ⟨t, rfl⟩

theorem mem_dateRangeAux_ge (stop : Date) : ∀ (n : Nat) (cur : Date),
    ∀ x ∈ dateRangeAux stop n cur, Date.le cur x := by
  intro n
  induction n with
  | zero => intro cur x hx; simp [dateRangeAux] at hx
  | succ k ih =>
    intro cur x hx
    rw [dateRangeAux] at hx
    split at hx
    · rcases List.mem_cons.mp hx with rfl | hxt
      · exact Date.le_refl x
      · exact Date.le_trans (Date.le_of_lt (Date.lt_nextDay cur)) (ih cur.nextDay x hxt)
    · cases hx

theorem pairwise_le_dateRangeAux (stop : Date) : ∀ (n : Nat) (cur : Date),
    (dateRangeAux stop n cur).Pairwise Date.le := by
  intro n
  induction n with
  | zero => intro cur; simp [dateRangeAux]
  | succ k ih =>
    intro cur
    rw [dateRangeAux]
    split
    · rw [List.pairwise_cons]
      exact ⟨fun y hy => Date.le_trans (Date.le_of_lt (Date.lt_nextDay cur))
        (mem_dateRangeAux_ge stop k cur.nextDay y hy), ih cur.nextDay⟩
    · exact List.Pairwise.nil

theorem pairwise_le_dateRangeList (start stop : Date) :
    (dateRangeList start stop).Pairwise Date.le :=
  pairwise_le_dateRangeAux stop _ start

theorem markersOfAccount_accountId (start stop : Date) (b : Account) :
    ∀ mk ∈ markersOfAccount start stop b, mk.accountId = b.id := by
  intro mk hmk
  simp only [markersOfAccount, List.mem_append] at hmk
  rcases hmk with h | h
  · split at h
    · split at h
      · rcases List.mem_singleton.mp h with rfl
        rfl
      · cases h
    · cases h
  · split at h
    · split at h
      · rcases List.mem_singleton.mp h with rfl
        rfl
      · cases h
    · cases h

theorem markersAt_date (accs : List Account) (start stop d0 : Date) :
    ∀ mk ∈ markersAt accs start stop d0, mk.date = d0 := by
  intro mk hmk
  have := (List.mem_filter.mp hmk).2
  simpa using this

theorem markersAt_exists_account (accs : List Account) (start stop d0 : Date) :
    ∀ mk ∈ markersAt accs start stop d0, ∃ b ∈ accs, mk ∈ markersOfAccount start stop b := by
  intro mk hmk
  have := (List.mem_filter.mp hmk).1
  exact List.mem_flatMap.mp this

theorem applyMarker_other (accs : List Account) (s : SimState) (mk : Marker) (i : Nat)
    (hne : mk.accountId ≠ i) :
    (applyMarker accs s mk).bal i = s.bal i ∧ (applyMarker accs s mk).ser i = s.ser i := by
  simp only [applyMarker]
  split
  · have hne2 : ¬ i = mk.accountId := fun h => hne h.symm
    refine ⟨?_, ?_⟩
    all_goals
      dsimp only
      exact if_neg hne2
  · exact ⟨rfl, rfl⟩

theorem applyEvent_other (accs : List Account) (s : SimState) (ev : CashflowEvent) (i : Nat)
    (hne : ev.accountId ≠ i) :
    (applyEvent accs s ev).bal i = s.bal i ∧ (applyEvent accs s ev).ser i = s.ser i := by
  simp only [applyEvent]
  split
  · exact ⟨rfl, rfl⟩
  · split
    · have hne2 : ¬ i = ev.accountId := fun h => hne h.symm
      refine ⟨?_, ?_⟩
      all_goals
        dsimp only
        exact if_neg hne2
    · exact ⟨rfl, rfl⟩

theorem applyEvent_skip (accs : List Account) (s : SimState) (ev : CashflowEvent)
    (acc : Account) (hlk : lookupAccount accs ev.accountId = some acc)
    (hinact : isAccountActiveOn acc ev.date = false) :
    applyEvent accs s ev = s := by
  simp only [applyEvent, hlk]
  rw [if_neg (by simp [hinact])]

theorem applyMarker_ser_append (accs : List Account) (s : SimState) (mk : Marker) (i : Nat) :
    ∃ suf, (applyMarker accs s mk).ser i = s.ser i ++ suf ∧ ∀ p ∈ suf, p.date = mk.date := by
  cases mk with
  | activate dd aid bb =>
    simp only [applyMarker, Marker.accountId, Marker.date]
    split
    · by_cases hi : i = aid
      · refine ⟨[⟨dd, bb, bb - s.bal aid, none⟩], ?_, ?_⟩
        · dsimp only
          rw [if_pos hi, hi]
        · intro p hp
          rcases List.mem_singleton.mp hp with rfl
          rfl
      · refine ⟨[], ?_, by simp⟩
        dsimp only
        rw [if_neg hi, List.append_nil]
    · exact ⟨[], by simp, by simp⟩
  | deactivate dd aid =>
    simp only [applyMarker, Marker.accountId, Marker.date]
    split
    · by_cases hi : i = aid
      · refine ⟨[⟨dd, 0, 0 - s.bal aid, none⟩], ?_, ?_⟩
        · dsimp only
          rw [if_pos hi, hi]
        · intro p hp
          rcases List.mem_singleton.mp hp with rfl
          rfl
      · refine ⟨[], ?_, by simp⟩
        dsimp only
        rw [if_neg hi, List.append_nil]
    · exact ⟨[], by simp, by simp⟩

theorem applyEvent_ser_append (accs : List Account) (s : SimState) (ev : CashflowEvent)
    (i : Nat) :
    ∃ suf, (applyEvent accs s ev).ser i = s.ser i ++ suf ∧ ∀ p ∈ suf, p.date = ev.date := by
  simp only [applyEvent]
  split
  · exact ⟨[], by simp, by simp⟩
  · split
    · by_cases hi : i = ev.accountId
      · subst hi
        refine ⟨[⟨ev.date, s.bal ev.accountId + ev.amountYen, ev.amountYen, some ev.id⟩],
          ?_, ?_⟩
        · dsimp only
          rw [if_pos rfl]
        · intro p hp
          rcases List.mem_singleton.mp hp with rfl
          rfl
      · refine ⟨[], by simp [hi], by simp⟩
    · exact ⟨[], by simp, by simp⟩

theorem foldl_preserves {β : Type} (f : SimState → β → SimState) (P : SimState → Prop) :
    ∀ (l : List β), (∀ s x, x ∈ l → P s → P (f s x)) → ∀ s, P s → P (l.foldl f s) := by
  intro l
  induction l with
  | nil => intro _ s hs; exact hs
  | cons x t ih =>
    intro h s hs
    rw [List.foldl_cons]
    exact ih (fun s2 y hy => h s2 y (List.mem_cons_of_mem x hy)) (f s x)
      (h s x (List.mem_cons_self x t) hs)

theorem foldl_ser_append {β : Type} (f : SimState → β → SimState) (i : Nat)
    (Q : FPoint → Prop) :
    ∀ (l : List β),
      (∀ s x, x ∈ l → ∃ suf, (f s x).ser i = s.ser i ++ suf ∧ ∀ p ∈ suf, Q p) →
      ∀ s, ∃ suf, (l.foldl f s).ser i = s.ser i ++ suf ∧ ∀ p ∈ suf, Q p := by
  intro l
  induction l with
  | nil => intro _ s; exact ⟨[], by simp, by simp⟩
  | cons x t ih =>
    intro h s
    rw [List.foldl_cons]
    obtain ⟨suf1, hs1, hq1⟩ := h s x (List.mem_cons_self x t)
    obtain ⟨suf2, hs2, hq2⟩ := ih (fun s2 y hy => h s2 y (List.mem_cons_of_mem x hy)) (f s x)
    refine ⟨suf1 ++ suf2, ?_, ?_⟩
    · rw [hs2, hs1, List.append_assoc]
    · intro p hp
      rcases List.mem_append.mp hp with hp | hp
      · exact hq1 p hp
      · exact hq2 p hp

theorem isAccountActiveOn_false_of_lt_start (a : Account) (sd d : Date)
    (hsd : a.effectiveStartDate = some sd) (hlt : Date.lt d sd) :
    isAccountActiveOn a d = false := by
  simp only [isAccountActiveOn, hsd]
  have : ¬ Date.le sd d := Date.not_le.mpr hlt
  simp [this]

theorem markersOfAccount_a_late (start stop : Date) (a : Account) (sd : Date)
    (hsd : a.effectiveStartDate = some sd)
    (hwf : ∀ e, a.effectiveEndDate = some e → Date.le sd e) :
    ∀ mk ∈ markersOfAccount start stop a, Date.le sd mk.date := by
  intro mk hmk
  rcases hend : a.effectiveEndDate with _ | e <;>
    simp only [markersOfAccount, hsd, hend, List.mem_append] at hmk
  · rcases hmk with h | h
    · split at h
      · rcases List.mem_singleton.mp h with rfl
        exact Date.le_refl sd
      · cases h
    · cases h
  · rcases hmk with h | h
    · split at h
      · rcases List.mem_singleton.mp h with rfl
        exact Date.le_refl sd
      · cases h
    · split at h
      · rcases List.mem_singleton.mp h with rfl
        exact Date.le_trans (hwf e hend) (Date.le_of_lt (Date.lt_nextDay e))
      · cases h

theorem markersAt_accountId_ne (accs : List Account) (start stop : Date)
    (a : Account) (sd : Date)
    (hnodup : (accs.map (fun x => x.id)).Nodup) (ha : a ∈ accs)
    (hsd : a.effectiveStartDate = some sd)
    (hwf : ∀ e, a.effectiveEndDate = some e → Date.le sd e)
    (d0 : Date) (hd0 : Date.lt d0 sd) :
    ∀ mk ∈ markersAt accs start stop d0, mk.accountId ≠ a.id := by
  intro mk hmk heq
  obtain ⟨b, hb, hmkb⟩ := markersAt_exists_account accs start stop d0 mk hmk
  have hbid : mk.accountId = b.id := markersOfAccount_accountId start stop b mk hmkb
  have hba : b = a := accsId_inj accs hnodup hb ha (by rw [← hbid, heq])
  subst hba
  have hlate := markersOfAccount_a_late start stop b sd hsd hwf mk hmkb
  have hdate := markersAt_date accs start stop d0 mk hmk
  rw [hdate] at hlate
  exact Date.lt_irrefl sd (Date.lt_of_le_of_lt hlate hd0)

theorem processDate_preserve_a (accs : List Account) (start stop : Date)
    (evs : List CashflowEvent) (a : Account) (sd : Date)
    (hnodup : (accs.map (fun x => x.id)).Nodup) (ha : a ∈ accs)
    (hsd : a.effectiveStartDate = some sd)
    (hwf : ∀ e, a.effectiveEndDate = some e → Date.le sd e)
    (d0 : Date) (hd0 : Date.lt d0 sd) (s : SimState) (hbal : s.bal a.id = 0) :
    (processDate accs start stop evs s d0).bal a.id = 0 ∧
    (processDate accs start stop evs s d0).ser a.id = s.ser a.id := by
  simp only [processDate]
  have hmark := foldl_preserves (applyMarker accs)
    (fun s2 => s2.bal a.id = 0 ∧ s2.ser a.id = s.ser a.id)
    (markersAt accs start stop d0)
    (fun s2 mk hmk hP => by
      have hne := markersAt_accountId_ne accs start stop a sd hnodup ha hsd hwf d0 hd0 mk hmk
      obtain ⟨hb, hs⟩ := applyMarker_other accs s2 mk a.id hne
      exact ⟨hb.trans hP.1, hs.trans hP.2⟩)
    s ⟨hbal, rfl⟩
  exact foldl_preserves (applyEvent accs)
    (fun s2 => s2.bal a.id = 0 ∧ s2.ser a.id = s.ser a.id)
    (evs.filter (fun e => e.date == d0))
    (fun s2 ev hev hP => by
      have hdate : ev.date = d0 := by
        have := (List.mem_filter.mp hev).2
        simpa using this
      by_cases hacc : ev.accountId = a.id
      · have hlk : lookupAccount accs ev.accountId = some a := by
          rw [hacc]
          exact lookupAccount_self accs hnodup a ha
        have hskip := applyEvent_skip accs s2 ev a hlk
          (by rw [hdate]; exact isAccountActiveOn_false_of_lt_start a sd d0 hsd hd0)
        rw [hskip]
        exact hP
      · obtain ⟨hb, hs⟩ := applyEvent_other accs s2 ev a.id hacc
        exact ⟨hb.trans hP.1, hs.trans hP.2⟩)
    _ hmark

theorem foldl_processDate_preserve_a (accs : List Account) (start stop : Date)
    (evs : List CashflowEvent) (a : Account) (sd : Date)
    (hnodup : (accs.map (fun x => x.id)).Nodup) (ha : a ∈ accs)
    (hsd : a.effectiveStartDate = some sd)
    (hwf : ∀ e, a.effectiveEndDate = some e → Date.le sd e)
    (ds : List Date) (hds : ∀ d0 ∈ ds, Date.lt d0 sd) (s : SimState)
    (hbal : s.bal a.id = 0) :
    (ds.foldl (processDate accs start stop evs) s).bal a.id = 0 ∧
    (ds.foldl (processDate accs start stop evs) s).ser a.id = s.ser a.id :=
  foldl_preserves (processDate accs start stop evs)
    (fun s2 => s2.bal a.id = 0 ∧ s2.ser a.id = s.ser a.id) ds
    (fun s2 d0 hd0 hP => by
      obtain ⟨hb, hs⟩ := processDate_preserve_a accs start stop evs a sd hnodup ha hsd hwf
        d0 (hds d0 hd0) s2 hP.1
      exact ⟨hb, hs.trans hP.2⟩)
    s ⟨hbal, rfl⟩

/-- The sorted, user-filtered account list of a forecast call. -/
def forecastAccs (accsRaw : List Account) (userId : Nat) : List Account :=
  sortAccountsById (accsRaw.filter (fun a => a.userId == userId))

/-- The sorted, filtered expected-event list of a forecast call. -/
def forecastEvs (eventsRaw : List CashflowEvent) (userId : Nat)
    (start stop : Date) : List CashflowEvent :=
  sortEvents (eventsRaw.filter (fun e => e.userId == userId &&
    decide (Date.le start e.date) && decide (Date.le e.date stop) && e.status == "expected"))

/-- The simulated timeline dates of a forecast call. -/
def forecastDates (accs : List Account) (evs : List CashflowEvent)
    (start stop : Date) : List Date :=
  sortedUnique (evs.map (fun e => e.date) ++
    (accs.flatMap (markersOfAccount start stop)).map Marker.date)

theorem forecastRun_eq (accsRaw : List Account) (eventsRaw : List CashflowEvent)
    (userId : Nat) (start stop : Date) (inc : Bool) :
    forecastRun accsRaw eventsRaw userId start stop inc =
      (forecastDates (forecastAccs accsRaw userId) (forecastEvs eventsRaw userId start stop)
          start stop).foldl
        (processDate (forecastAccs accsRaw userId) start stop
          (forecastEvs eventsRaw userId start stop))
        (forecastInit (forecastAccs accsRaw userId) start inc) := rfl

theorem markersAt_decomp_at_sd (accs : List Account) (start stop : Date)
    (a : Account) (sd : Date)
    (hnodup : (accs.map (fun x => x.id)).Nodup) (ha : a ∈ accs)
    (hsd : a.effectiveStartDate = some sd)
    (h1 : Date.lt start sd) (h2 : Date.le sd stop)
    (hwf : ∀ e, a.effectiveEndDate = some e → Date.le sd e) :
    ∃ M1 M2, markersAt accs start stop sd =
        M1 ++ Marker.activate sd a.id a.balanceYen :: M2 ∧
      (∀ mk ∈ M1, mk.accountId ≠ a.id) ∧ (∀ mk ∈ M2, mk.accountId ≠ a.id) := by
  obtain ⟨P, Q, hPQ⟩ := List.append_of_mem ha
  subst hPQ
  rw [List.map_append, List.map_cons] at hnodup
  rcases List.nodup_append.mp hnodup with ⟨hPn, hmid, hdisj⟩
  have haP : a.id ∉ P.map (fun x => x.id) := fun hmem =>
    hdisj hmem (List.mem_cons_self _ _)
  have haQ : a.id ∉ Q.map (fun x => x.id) := (List.nodup_cons.mp hmid).1
  have hfa : (markersOfAccount start stop a).filter (fun mk => decide (mk.date = sd)) =
      [Marker.activate sd a.id a.balanceYen] := by
    rcases hend : a.effectiveEndDate with _ | e
    · simp only [markersOfAccount, hsd, hend, List.append_nil]
      rw [if_pos ⟨h1, h2⟩]
      simp [Marker.date]
    · have hlt : Date.lt sd e.nextDay :=
        Date.lt_of_le_of_lt (hwf e hend) (Date.lt_nextDay e)
      have hne : ¬ ((Marker.deactivate e.nextDay a.id).date = sd) := by
        intro hh
        simp only [Marker.date] at hh
        exact Date.lt_irrefl sd (hh ▸ hlt)
      simp only [markersOfAccount, hsd, hend, List.filter_append]
      rw [if_pos ⟨h1, h2⟩]
      have hsec : (if Date.lt start e.nextDay ∧ Date.le e.nextDay stop then
            [Marker.deactivate e.nextDay a.id] else []).filter
            (fun mk => decide (mk.date = sd)) = [] := by
        split
        · simp [hne]
        · rfl
      rw [hsec, List.append_nil]
      simp [Marker.date]
  refine ⟨(P.flatMap (markersOfAccount start stop)).filter (fun mk => decide (mk.date = sd)),
    (Q.flatMap (markersOfAccount start stop)).filter (fun mk => decide (mk.date = sd)),
    ?_, ?_, ?_⟩
  · rw [markersAt, List.flatMap_append, List.flatMap_cons, List.filter_append,
      List.filter_append, hfa]
    rfl
  · intro mk hmk heq
    obtain ⟨b, hb, hmkb⟩ := List.mem_flatMap.mp (List.mem_filter.mp hmk).1
    have hbid := markersOfAccount_accountId start stop b mk hmkb
    apply haP
    rw [← heq, hbid]
    exact List.mem_map_of_mem (fun x => x.id) hb
  · intro mk hmk heq
    obtain ⟨b, hb, hmkb⟩ := List.mem_flatMap.mp (List.mem_filter.mp hmk).1
    have hbid := markersOfAccount_accountId start stop b mk hmkb
    apply haQ
    rw [← heq, hbid]
    exact List.mem_map_of_mem (fun x => x.id) hb

theorem applyMarker_activate_self (accs : List Account) (s : SimState) (a : Account)
    (ha : a ∈ accs) (sd : Date) (hbal : s.bal a.id = 0) :
    (applyMarker accs s (Marker.activate sd a.id a.balanceYen)).ser a.id =
      s.ser a.id ++ [⟨sd, a.balanceYen, a.balanceYen, none⟩] ∧
    (applyMarker accs s (Marker.activate sd a.id a.balanceYen)).bal a.id = a.balanceYen := by
  have hc : (accs.map (fun x => x.id)).contains a.id = true :=
    List.elem_eq_true_of_mem (List.mem_map_of_mem (fun x => x.id) ha)
  simp only [applyMarker, Marker.accountId, Marker.date]
  rw [if_pos hc]
  refine ⟨?_, ?_⟩
  · dsimp only
    rw [if_pos rfl, hbal, sub_zero]
  · dsimp only
    rw [if_pos rfl]

theorem processDate_ser_append (accs : List Account) (start stop : Date)
    (evs : List CashflowEvent) (s : SimState) (d0 : Date) (i : Nat) :
    ∃ suf, (processDate accs start stop evs s d0).ser i = s.ser i ++ suf ∧
      ∀ p ∈ suf, p.date = d0 := by
  simp only [processDate]
  obtain ⟨suf1, hs1, hq1⟩ := foldl_ser_append (applyMarker accs) i (fun p => p.date = d0)
    (markersAt accs start stop d0)
    (fun s2 mk hmk => by
      obtain ⟨suf, hsuf, hdates⟩ := applyMarker_ser_append accs s2 mk i
      exact ⟨suf, hsuf, fun p hp =>
        (hdates p hp).trans (markersAt_date accs start stop d0 mk hmk)⟩)
    s
  obtain ⟨suf2, hs2, hq2⟩ := foldl_ser_append (applyEvent accs) i (fun p => p.date = d0)
    (evs.filter (fun e => e.date == d0))
    (fun s2 ev hev => by
      obtain ⟨suf, hsuf, hdates⟩ := applyEvent_ser_append accs s2 ev i
      have hdate : ev.date = d0 := by simpa using (List.mem_filter.mp hev).2
      exact ⟨suf, hsuf, fun p hp => (hdates p hp).trans hdate⟩)
    _
  refine ⟨suf1 ++ suf2, ?_, ?_⟩
  · rw [hs2, hs1, List.append_assoc]
  · intro p hp
    rcases List.mem_append.mp hp with h | h
    · exact hq1 p h
    · exact hq2 p h

theorem processDate_at_sd (accs : List Account) (start stop : Date)
    (evs : List CashflowEvent) (a : Account) (sd : Date)
    (hnodup : (accs.map (fun x => x.id)).Nodup) (ha : a ∈ accs)
    (hsd : a.effectiveStartDate = some sd)
    (h1 : Date.lt start sd) (h2 : Date.le sd stop)
    (hwf : ∀ e, a.effectiveEndDate = some e → Date.le sd e)
    (s : SimState) (hbal : s.bal a.id = 0) :
    ∃ suf, (processDate accs start stop evs s sd).ser a.id =
        s.ser a.id ++ (⟨sd, a.balanceYen, a.balanceYen, none⟩ : FPoint) :: suf ∧
      ∀ p ∈ suf, p.date = sd := by
  obtain ⟨M1, M2, hM, hM1, hM2⟩ :=
    markersAt_decomp_at_sd accs start stop a sd hnodup ha hsd h1 h2 hwf
  simp only [processDate, hM]
  rw [List.foldl_append, List.foldl_cons]
  have hpres1 : (M1.foldl (applyMarker accs) s).bal a.id = 0 ∧
      (M1.foldl (applyMarker accs) s).ser a.id = s.ser a.id :=
    foldl_preserves (applyMarker accs)
      (fun s2 => s2.bal a.id = 0 ∧ s2.ser a.id = s.ser a.id) M1
      (fun s2 mk hmk hP => by
        obtain ⟨hb, hs⟩ := applyMarker_other accs s2 mk a.id (hM1 mk hmk)
        exact ⟨hb.trans hP.1, hs.trans hP.2⟩)
      s ⟨hbal, rfl⟩
  obtain ⟨hser2, hbal2⟩ := applyMarker_activate_self accs (M1.foldl (applyMarker accs) s)
    a ha sd hpres1.1
  have hpres2 : ((M2.foldl (applyMarker accs)
        (applyMarker accs (M1.foldl (applyMarker accs) s)
          (Marker.activate sd a.id a.balanceYen)))).ser a.id =
      s.ser a.id ++ [⟨sd, a.balanceYen, a.balanceYen, none⟩] := by
    have := foldl_preserves (applyMarker accs)
      (fun s2 => s2.ser a.id = s.ser a.id ++ [⟨sd, a.balanceYen, a.balanceYen, none⟩]) M2
      (fun s2 mk hmk hP => by
        obtain ⟨_, hs⟩ := applyMarker_other accs s2 mk a.id (hM2 mk hmk)
        exact hs.trans hP)
      (applyMarker accs (M1.foldl (applyMarker accs) s)
        (Marker.activate sd a.id a.balanceYen))
      (by dsimp only; rw [hser2, hpres1.2])
    exact this
  obtain ⟨suf, hsuf, hdates⟩ := foldl_ser_append (applyEvent accs) a.id (fun p => p.date = sd)
    (evs.filter (fun e => e.date == sd))
    (fun s2 ev hev => by
      obtain ⟨suf, hsuf, hdates⟩ := applyEvent_ser_append accs s2 ev a.id
      have hdate : ev.date = sd := by simpa using (List.mem_filter.mp hev).2
      exact ⟨suf, hsuf, fun p hp => (hdates p hp).trans hdate⟩)
    (M2.foldl (applyMarker accs)
      (applyMarker accs (M1.foldl (applyMarker accs) s)
        (Marker.activate sd a.id a.balanceYen)))
  refine ⟨suf, ?_, hdates⟩
  rw [hsuf, hpres2, List.append_assoc]
  rfl

theorem forecastRun_ser_shape (accsRaw : List Account) (eventsRaw : List CashflowEvent)
    (userId : Nat) (start stop : Date) (a : Account) (sd : Date)
    (hnodup : ((forecastAccs accsRaw userId).map (fun x => x.id)).Nodup)
    (ha : a ∈ forecastAccs accsRaw userId)
    (hsd : a.effectiveStartDate = some sd)
    (h1 : Date.lt start sd) (h2 : Date.le sd stop)
    (hwf : ∀ e, a.effectiveEndDate = some e → Date.le sd e) :
    forecastStartBalance (forecastAccs accsRaw userId) start a.id = 0 ∧
    ∃ rest, (forecastRun accsRaw eventsRaw userId start stop true).ser a.id =
        (⟨start, 0, 0, none⟩ : FPoint) ::
          (⟨sd, a.balanceYen, a.balanceYen, none⟩ : FPoint) :: rest ∧
      ∀ p ∈ rest, Date.le sd p.date := by
  have hinact : isAccountActiveOn a start = false :=
    isAccountActiveOn_false_of_lt_start a sd start hsd h1
  have hstartbal : forecastStartBalance (forecastAccs accsRaw userId) start a.id = 0 := by
    rw [forecastStartBalance, lookupAccount_self (forecastAccs accsRaw userId) hnodup a ha]
    simp [hinact]
  refine ⟨hstartbal, ?_⟩
  have hinit_ser : (forecastInit (forecastAccs accsRaw userId) start true).ser a.id =
      [⟨start, 0, 0, none⟩] := by
    have hc : ((forecastAccs accsRaw userId).map (fun x => x.id)).contains a.id = true :=
      List.elem_eq_true_of_mem (List.mem_map_of_mem (fun x => x.id) ha)
    simp only [forecastInit]
    rw [if_pos (by rw [hc]; rfl), hstartbal]
  have hinit_bal : (forecastInit (forecastAccs accsRaw userId) start true).bal a.id = 0 :=
    hstartbal
  have hmk : Marker.activate sd a.id a.balanceYen ∈
      markersOfAccount start stop a := by
    simp only [markersOfAccount, hsd, List.mem_append]
    left
    rw [if_pos ⟨h1, h2⟩]
    exact List.mem_singleton.mpr rfl
  have hsdD : sd ∈ forecastDates (forecastAccs accsRaw userId)
      (forecastEvs eventsRaw userId start stop) start stop := by
    rw [forecastDates]
    apply mem_sortedUnique.mpr
    apply List.mem_append.mpr
    right
    exact List.mem_map_of_mem Marker.date (List.mem_flatMap.mpr ⟨a, ha, hmk⟩)
  have hpair : (forecastDates (forecastAccs accsRaw userId)
      (forecastEvs eventsRaw userId start stop) start stop).Pairwise Date.le :=
    pairwise_le_sortedUnique _
  obtain ⟨t, hdw⟩ := dropWhile_head_eq sd _ hpair hsdD
  have hsplit : forecastDates (forecastAccs accsRaw userId)
      (forecastEvs eventsRaw userId start stop) start stop =
      (forecastDates (forecastAccs accsRaw userId)
        (forecastEvs eventsRaw userId start stop) start stop).takeWhile
          (fun d => decide (Date.lt d sd)) ++ sd :: t := by
    rw [← hdw]
    exact (List.takeWhile_append_dropWhile _ _).symm
  rw [forecastRun_eq, hsplit, List.foldl_append, List.foldl_cons]
  have hphase1 := foldl_processDate_preserve_a (forecastAccs accsRaw userId) start stop
    (forecastEvs eventsRaw userId start stop) a sd hnodup ha hsd hwf
    ((forecastDates (forecastAccs accsRaw userId)
      (forecastEvs eventsRaw userId start stop) start stop).takeWhile
        (fun d => decide (Date.lt d sd)))
    (fun d0 hd0 => by simpa using List.mem_takeWhile_imp hd0)
    (forecastInit (forecastAccs accsRaw userId) start true) hinit_bal
  obtain ⟨suf1, hsuf1, hdates1⟩ := processDate_at_sd (forecastAccs accsRaw userId) start stop
    (forecastEvs eventsRaw userId start stop) a sd hnodup ha hsd h1 h2 hwf
    _ hphase1.1
  have hddw : ∀ d0 ∈ t, Date.le sd d0 := by
    intro d0 hd0
    apply dropWhile_all_ge sd _ hpair
    rw [hdw]
    exact List.mem_cons_of_mem sd hd0
  obtain ⟨suf2, hsuf2, hdates2⟩ := foldl_ser_append
    (processDate (forecastAccs accsRaw userId) start stop
      (forecastEvs eventsRaw userId start stop)) a.id
    (fun p => Date.le sd p.date) t
    (fun s2 d0 hd0 => by
      obtain ⟨suf, hsuf, hdates⟩ := processDate_ser_append (forecastAccs accsRaw userId)
        start stop (forecastEvs eventsRaw userId start stop) s2 d0 a.id
      exact ⟨suf, hsuf, fun p hp => by
        show Date.le sd p.date
        rw [hdates p hp]
        exact hddw d0 hd0⟩)
    _
  refine ⟨suf1 ++ suf2, ?_, ?_⟩
  · rw [hsuf2, hsuf1, hphase1.2, hinit_ser]
    simp
  · intro p hp
    rcases List.mem_append.mp hp with h | h
    · exact (hdates1 p h) ▸ Date.le_refl sd
    · exact hdates2 p h

theorem dailyLoop_fst (pts : List FPoint) : ∀ (days : List Date) (last : Int),
    (dailyLoop pts last days).map Prod.fst = days := by
  intro days
  induction days with
  | nil => intro last; rfl
  | cons d rest ih =>
    intro last
    simp only [dailyLoop, List.map_cons]
    rw [ih]

theorem dailyLoop_append (pts : List FPoint) : ∀ (l1 : List Date) (last : Int) (l2 : List Date),
    ∃ last2, dailyLoop pts last (l1 ++ l2) =
      dailyLoop pts last l1 ++ dailyLoop pts last2 l2 := by
  intro l1
  induction l1 with
  | nil => intro last l2; exact ⟨last, rfl⟩
  | cons d rest ih =>
    intro last l2
    simp only [List.cons_append, dailyLoop]
    obtain ⟨last2, hl⟩ := ih (match (pts.filter (fun p => p.date == d)).getLast? with
      | some p => p.balanceYen | none => last) l2
    exact ⟨last2, by simp only [List.append_eq]; rw [hl]⟩

theorem dailyLoop_all_zero (pts : List FPoint) (sd : Date)
    (hpts : ∀ p ∈ pts, Date.lt p.date sd → p.balanceYen = 0) :
    ∀ (days : List Date), (∀ d0 ∈ days, Date.lt d0 sd) →
    ∀ ent ∈ dailyLoop pts 0 days, ent.2 = 0 := by
  intro days
  induction days with
  | nil => intro _ ent hent; cases hent
  | cons d rest ih =>
    intro hdays ent hent
    have hlast : (match (pts.filter (fun p => p.date == d)).getLast? with
        | some p => p.balanceYen | none => (0 : Int)) = 0 := by
      cases hgl : (pts.filter (fun p => p.date == d)).getLast? with
      | none => rfl
      | some p =>
        have hp := mem_of_getLast?_eq_some hgl
        have hpd : p.date = d := by simpa using (List.mem_filter.mp hp).2
        exact hpts p (List.mem_filter.mp hp).1
          (hpd ▸ hdays d (List.mem_cons_self d rest))
    rw [dailyLoop] at hent
    rw [hlast] at hent
    rcases List.mem_cons.mp hent with rfl | hrest
    · rfl
    · exact ih (fun d0 hd0 => hdays d0 (List.mem_cons_of_mem d hd0)) ent hrest

theorem seriesValueAt_zero_of_matching (l : List (Date × Int)) (d0 : Date)
    (h : ∀ ent ∈ l, ent.1 = d0 → ent.2 = 0) : seriesValueAt l d0 = 0 := by
  rw [seriesValueAt]
  cases hf : l.find? (fun p => p.1 == d0) with
  | none => rfl
  | some p =>
    exact h p (List.mem_of_find?_eq_some hf) (by simpa using List.find?_some hf)

theorem accountDailySeries_zero_before (accs : List Account) (run : SimState)
    (start stop : Date) (a : Account) (sd : Date)
    (hbal0 : forecastStartBalance accs start a.id = 0)
    (hpts : ∀ p ∈ run.ser a.id, Date.lt p.date sd → p.balanceYen = 0)
    (d0 : Date) (hd0 : Date.lt d0 sd) :
    seriesValueAt (accountDailySeries accs run start stop a.id) d0 = 0 := by
  rw [accountDailySeries, hbal0]
  have hsplit : dateRangeList start stop =
      (dateRangeList start stop).takeWhile (fun d => decide (Date.lt d sd)) ++
      (dateRangeList start stop).dropWhile (fun d => decide (Date.lt d sd)) :=
    (List.takeWhile_append_dropWhile _ _).symm
  rw [hsplit]
  obtain ⟨last2, hl⟩ := dailyLoop_append (run.ser a.id)
    ((dateRangeList start stop).takeWhile (fun d => decide (Date.lt d sd))) 0
    ((dateRangeList start stop).dropWhile (fun d => decide (Date.lt d sd)))
  rw [hl]
  apply seriesValueAt_zero_of_matching
  intro ent hent hkey
  rcases List.mem_append.mp hent with h | h
  · exact dailyLoop_all_zero (run.ser a.id) sd hpts _
      (fun d1 hd1 => by simpa using List.mem_takeWhile_imp hd1) ent h
  · exfalso
    have hkey2 : ent.1 ∈ ((dateRangeList start stop).dropWhile
        (fun d => decide (Date.lt d sd))) := by
      rw [← dailyLoop_fst (run.ser a.id) ((dateRangeList start stop).dropWhile
        (fun d => decide (Date.lt d sd))) last2]
      exact List.mem_map_of_mem Prod.fst h
    have hge := dropWhile_all_ge sd (dateRangeList start stop)
      (pairwise_le_dateRangeList start stop) ent.1 hkey2
    rw [hkey] at hge
    exact Date.lt_irrefl sd (Date.lt_of_le_of_lt hge hd0)

theorem seriesValueAt_cons (d : Date) (x : Int) (t : List (Date × Int)) (d0 : Date) :
    seriesValueAt ((d, x) :: t) d0 = if d = d0 then x else seriesValueAt t d0 := by
  by_cases h : d = d0
  · rw [seriesValueAt, List.find?_cons_of_pos _ (by simpa using h), if_pos h]
  · rw [seriesValueAt, List.find?_cons_of_neg _ (by simpa using h), if_neg h]
    rfl

theorem addSeriesPoints_spec : ∀ (l1 l2 : List (Date × Int)),
    l1.map Prod.fst = l2.map Prod.fst →
    (addSeriesPoints l1 l2).map Prod.fst = l1.map Prod.fst ∧
    ∀ d0, seriesValueAt (addSeriesPoints l1 l2) d0 =
      seriesValueAt l1 d0 + seriesValueAt l2 d0 := by
  intro l1
  induction l1 with
  | nil =>
    intro l2 h
    have hl2 : l2 = [] := List.map_eq_nil_iff.mp h.symm
    subst hl2
    exact ⟨rfl, fun d0 => by simp [addSeriesPoints, seriesValueAt]⟩
  | cons p t1 ih =>
    intro l2 h
    obtain ⟨d, x⟩ := p
    cases l2 with
    | nil => simp at h
    | cons q t2 =>
      obtain ⟨d2, y⟩ := q
      simp only [List.map_cons, List.cons.injEq] at h
      obtain ⟨rfl, hmaps⟩ := h
      obtain ⟨ihk, ihv⟩ := ih t2 hmaps
      refine ⟨?_, ?_⟩
      · simp only [addSeriesPoints, List.map_cons]
        rw [ihk]
      · intro d0
        simp only [addSeriesPoints]
        rw [seriesValueAt_cons, seriesValueAt_cons, seriesValueAt_cons]
        by_cases hd : d = d0
        · rw [if_pos hd, if_pos hd, if_pos hd]
        · rw [if_neg hd, if_neg hd, if_neg hd]
          exact ihv d0

theorem foldl_addSeries (days : List Date) : ∀ (ls : List (List (Date × Int)))
    (acc : List (Date × Int)),
    acc.map Prod.fst = days → (∀ l ∈ ls, l.map Prod.fst = days) →
    (ls.foldl addSeriesPoints acc).map Prod.fst = days ∧
    ∀ d0, seriesValueAt (ls.foldl addSeriesPoints acc) d0 =
      seriesValueAt acc d0 + (ls.map (fun l => seriesValueAt l d0)).sum := by
  intro ls
  induction ls with
  | nil => intro acc hacc _; exact ⟨hacc, fun d0 => by simp⟩
  | cons l rest ih =>
    intro acc hacc hls
    have hl : l.map Prod.fst = days := hls l (List.mem_cons_self l rest)
    obtain ⟨hk, hv⟩ := addSeriesPoints_spec acc l (hacc.trans hl.symm)
    obtain ⟨ihk, ihv⟩ := ih (addSeriesPoints acc l) (hk.trans hacc)
      (fun l2 hl2 => hls l2 (List.mem_cons_of_mem l hl2))
    refine ⟨ihk, fun d0 => ?_⟩
    rw [List.foldl_cons, ihv d0, hv d0, List.map_cons, List.sum_cons, add_assoc]

theorem forecastTotalDaily_eq (accsRaw : List Account) (eventsRaw : List CashflowEvent)
    (userId : Nat) (start stop : Date) :
    forecastTotalDaily accsRaw eventsRaw userId start stop =
      ((forecastAccs accsRaw userId).map (fun x => accountDailySeries
          (forecastAccs accsRaw userId)
          (forecastRun accsRaw eventsRaw userId start stop true) start stop x.id)).foldl
        addSeriesPoints ((dateRangeList start stop).map (fun d => (d, (0 : Int)))) := rfl

theorem forecastTotalDaily_value (accsRaw : List Account) (eventsRaw : List CashflowEvent)
    (userId : Nat) (start stop : Date) (d0 : Date) :
    seriesValueAt (forecastTotalDaily accsRaw eventsRaw userId start stop) d0 =
      ((forecastAccs accsRaw userId).map (fun b => seriesValueAt (accountDailySeries
        (forecastAccs accsRaw userId) (forecastRun accsRaw eventsRaw userId start stop true)
        start stop b.id) d0)).sum := by
  rw [forecastTotalDaily_eq]
  have hbasek : ((dateRangeList start stop).map (fun d => (d, (0 : Int)))).map Prod.fst =
      dateRangeList start stop := by
    rw [List.map_map]
    exact List.map_id _
  have hbasev : seriesValueAt ((dateRangeList start stop).map (fun d => (d, (0 : Int)))) d0
      = 0 := by
    apply seriesValueAt_zero_of_matching
    intro ent hent _
    obtain ⟨d1, _, rfl⟩ := List.mem_map.mp hent
    rfl
  obtain ⟨_, hv⟩ := foldl_addSeries (dateRangeList start stop)
    ((forecastAccs accsRaw userId).map (fun x => accountDailySeries
      (forecastAccs accsRaw userId)
      (forecastRun accsRaw eventsRaw userId start stop true) start stop x.id))
    ((dateRangeList start stop).map (fun d => (d, (0 : Int))))
    hbasek
    (fun l hl => by
      obtain ⟨b, _, rfl⟩ := List.mem_map.mp hl
      rw [accountDailySeries]
      exact dailyLoop_fst _ _ _)
  rw [hv d0, hbasev, zero_add, List.map_map]
  rfl

/-- C4: for every account of the forecast's (deduplicated) user account list whose
`effective_start` lies strictly after the range start (and whose effective window is
non-empty and reaches the start date), the simulation assigns it a starting balance
of zero; its event-level series is the zero start point followed immediately by the
activation point on `effective_start`, whose balance and delta are exactly the stored
balance, with every later point dated on or after `effective_start`; its daily series
is zero on every range date strictly before `effective_start`; and the aggregate
daily series is, at every date, exactly the sum of the per-account daily series, so
the account's contribution to the aggregate before `effective_start` is exactly 0. -/
theorem C4_account_effective_window (accsRaw : List Account) (eventsRaw : List CashflowEvent)
    (userId : Nat) (start stop : Date) (a : Account) (sd : Date)
    (hnodup : ((forecastAccs accsRaw userId).map (fun x => x.id)).Nodup)
    (ha : a ∈ forecastAccs accsRaw userId)
    (hsd : a.effectiveStartDate = some sd)
    (h1 : Date.lt start sd) (h2 : Date.le sd stop)
    (hwf : ∀ e, a.effectiveEndDate = some e → Date.le sd e) :
    forecastStartBalance (forecastAccs accsRaw userId) start a.id = 0 ∧
    (∃ rest, (forecastRun accsRaw eventsRaw userId start stop true).ser a.id =
        (⟨start, 0, 0, none⟩ : FPoint) ::
          (⟨sd, a.balanceYen, a.balanceYen, none⟩ : FPoint) :: rest ∧
      ∀ p ∈ rest, Date.le sd p.date) ∧
    (∀ d0, Date.lt d0 sd →
      seriesValueAt (accountDailySeries (forecastAccs accsRaw userId)
        (forecastRun accsRaw eventsRaw userId start stop true) start stop a.id) d0 = 0) ∧
    (∀ d0, seriesValueAt (forecastTotalDaily accsRaw eventsRaw userId start stop) d0 =
      ((forecastAccs accsRaw userId).map (fun b => seriesValueAt (accountDailySeries
        (forecastAccs accsRaw userId) (forecastRun accsRaw eventsRaw userId start stop true)
        start stop b.id) d0)).sum) := by
  obtain ⟨hstart, rest, hser, hrest⟩ :=
    forecastRun_ser_shape accsRaw eventsRaw userId start stop a sd hnodup ha hsd h1 h2 hwf
  refine ⟨hstart, ⟨rest, hser, hrest⟩, ?_, ?_⟩
  · intro d0 hd0
    apply accountDailySeries_zero_before (forecastAccs accsRaw userId)
      (forecastRun accsRaw eventsRaw userId start stop true) start stop a sd hstart
      ?_ d0 hd0
    intro p hp hlt
    rw [hser] at hp
    rcases List.mem_cons.mp hp with rfl | hp2
    · rfl
    · rcases List.mem_cons.mp hp2 with rfl | hp3
      · exact absurd hlt (Date.lt_irrefl sd)
      · exact absurd (Date.lt_of_le_of_lt (hrest p hp3) hlt) (Date.lt_irrefl sd)
  · intro d0
    exact forecastTotalDaily_value accsRaw eventsRaw userId start stop d0

def exampleAccC4 : Account := ⟨1, "Main", "bank", 1000, 1, some ⟨2026, 2, 10⟩, none⟩

def exampleAccsC4 : List Account := [exampleAccC4]

theorem C4_account_effective_window_witness :
    forecastStartBalance (forecastAccs exampleAccsC4 1) ⟨2026, 2, 1⟩ 1 = 0 ∧
    seriesValueAt (accountDailySeries (forecastAccs exampleAccsC4 1)
        (forecastRun exampleAccsC4 [] 1 ⟨2026, 2, 1⟩ ⟨2026, 2, 12⟩ true)
        ⟨2026, 2, 1⟩ ⟨2026, 2, 12⟩ 1) ⟨2026, 2, 5⟩ = 0 := by
  obtain ⟨p1, p2, p3, p4⟩ := C4_account_effective_window exampleAccsC4 [] 1
    ⟨2026, 2, 1⟩ ⟨2026, 2, 12⟩ exampleAccC4 ⟨2026, 2, 10⟩
    (by decide) (by decide) rfl (by decide) (by decide)
    (fun e he => by cases he)
  exact ⟨p1, p3 ⟨2026, 2, 5⟩ (by decide)⟩
